import Mathlib

/-!
Verification development for the poly-trade-scan repository.

The Python source is shallowly embedded: bytes are `List Nat` (each entry a
byte value), Python `None`-returning functions become `Option`, and functions
that can raise become `Except PyErr`.  Machine integers are `Nat`/`Int`
(Python integers are unbounded, so no wrap-around is modelled).

Embedded modules:
  * `src/core/models.py`        — `DecodedOrder`, `TradeData`
  * `src/core/abi.py`           — selector and ABI schema constants
  * `src/core/decoder.py`       — `TransactionDecoder`
  * `src/core/wallet_filter.py` — `WalletFilter`
  * `src/core/block_processor.py` — `BlockProcessor.process_block`
  * `src/downloader.py`         — `TradeDownloader` (`_rpc_call`,
    `_process_block`, `download`)
  * `src/monitor.py` / `src/api/polygon.py` — the live monitor's per-block
    event handling and subscription loop.
-/

/-! ## Hex primitives (Python `bytes.fromhex`, `int(s, 16)`, `hex`) -/

/-- Value of a single hex digit character, accepting both cases
(as Python's `bytes.fromhex` and `int(s, 16)` do). -/
def hexDigitVal (c : Char) : Option Nat :=
  let n := c.toNat
  if 48 ≤ n ∧ n ≤ 57 then some (n - 48)
  else if 97 ≤ n ∧ n ≤ 102 then some (n - 87)
  else if 65 ≤ n ∧ n ≤ 70 then some (n - 55)
  else none

/-- `bytes.fromhex` on a list of characters: strict pairs of hex digits,
even length required; any other character fails (`ValueError`). -/
def bytesFromHexChars : List Char → Option (List Nat)
  | [] => some []
  | [_] => none
  | a :: b :: rest => do
      let ha ← hexDigitVal a
      let hb ← hexDigitVal b
      let r ← bytesFromHexChars rest
      pure ((ha * 16 + hb) :: r)

/-- Hex digit character (lowercase) for a value `< 16`. -/
def hexChar (d : Nat) : Char :=
  "0123456789abcdef".toList.getD d '0'

/-- Lowercase hex rendering of a byte list, two characters per byte. -/
def bytesToHexChars (bs : List Nat) : List Char :=
  (bs.map (fun b => [hexChar (b / 16), hexChar (b % 16)])).flatten

/-- Python `int(s, 16)`: optional sign, optional `0x`/`0X` prefix, then a
nonempty run of hex digits.  (Surrounding whitespace and `_` separators,
which Python also accepts, are not modelled; no claim depends on them.) -/
def pyIntHexChars (cs : List Char) : Option Int :=
  let signAndRest : Int × List Char :=
    match cs with
    | '+' :: r => (1, r)
    | '-' :: r => (-1, r)
    | r => (1, r)
  let body : List Char :=
    match signAndRest.2 with
    | '0' :: 'x' :: r => r
    | '0' :: 'X' :: r => r
    | _ => signAndRest.2
  match body with
  | [] => none
  | _ :: _ => do
      let v ← body.foldlM (fun acc c => do
        let d ← hexDigitVal c
        pure (acc * 16 + d)) 0
      pure (signAndRest.1 * (v : Int))

/-- Python `int(s, 16)` on a string. -/
def pyIntHex (s : String) : Option Int :=
  pyIntHexChars s.toList

/-! ## 32-byte words (ABI encoding primitives) -/

/-- Little-endian byte expansion of `v`, `k` bytes. -/
def lsbBytes : Nat → Nat → List Nat
  | 0, _ => []
  | k + 1, v => (v % 256) :: lsbBytes k (v / 256)

/-- Big-endian 32-byte word holding `v % 256^32`. -/
def word32 (v : Nat) : List Nat :=
  (lsbBytes 32 v).reverse

/-- Big-endian value of a byte list. -/
def wordToNat (w : List Nat) : Nat :=
  w.foldl (fun a b => a * 256 + b) 0

/-- Length of a dynamic-bytes payload padded up to a 32-byte boundary. -/
def pad32 (n : Nat) : Nat :=
  32 * ((n + 31) / 32)

/-- Little-endian hex-digit expansion of `v`, `k` digits. -/
def hexLsb : Nat → Nat → List Nat
  | 0, _ => []
  | k + 1, v => (v % 16) :: hexLsb k (v / 16)

/-- Fixed-width lowercase hex rendering (`k` digits, big-endian). -/
def natToHexFixed (k v : Nat) : List Char :=
  ((hexLsb k v).reverse).map hexChar

/-! ## Data model (`src/core/models.py`) -/

/-- `DecodedOrder` from `src/core/models.py`: one parsed order.
`signature` is a byte list; addresses are hex strings. -/
structure DecodedOrder where
  salt : Nat
  maker : String
  signer : String
  taker : String
  token_id : String
  maker_amount : Nat
  taker_amount : Nat
  expiration : Nat
  nonce : Nat
  fee_rate_bps : Nat
  side : Nat
  signature_type : Nat
  signature : List Nat
  deriving DecidableEq, Repr

/-- `TradeData` from `src/core/models.py`: one attributed trade. -/
structure TradeData where
  block_number : Nat
  transaction_hash : String
  wallet : String
  token_id : String
  side : Nat
  maker_amount : Nat
  taker_amount : Nat
  deriving DecidableEq, Repr

/-- A transaction object as returned by `eth_getBlockByNumber(_, true)`:
only the fields the core reads.  `none` models an absent dict key. -/
structure Tx where
  hash : String
  toAddr : Option String
  input : Option String
  deriving DecidableEq, Repr

/-- A receipt object as returned by `eth_getBlockReceipts`.
`transactionHash` is always present (both call sites index it directly);
`status` is `none` when the key is absent from the dict. -/
structure Receipt where
  transactionHash : String
  status : Option String
  deriving DecidableEq, Repr

/-- A Python exception kind relevant to the embedded code. -/
inductive PyErr where
  | keyError
  | valueError
  deriving DecidableEq, Repr

/-! ## ABI constants (`src/core/abi.py`) -/

/-- `MATCH_ORDERS_SELECTOR = bytes.fromhex("2287e350")`. -/
def MATCH_ORDERS_SELECTOR : List Nat := [0x22, 0x87, 0xe3, 0x50]

/-! ## ABI decoding (`eth_abi.decode` on `MATCH_ORDERS_ABI_TYPES`)

`eth_abi.decode` is an external library; its behaviour on the fixed schema
`(Order, Order[], uint256, uint256, uint256[], uint256, uint256[])` with
`Order = (uint256,address,address,address,uint256×6,uint8,uint8,bytes)` is
embedded here: head/tail ABI layout, bounds-checked reads, zero-padding
validation for `address`/`uint8`/`bytes`, failure as `none` (the library
raises, `TransactionDecoder.decode` catches). -/

/-- The raw Python value of one decoded order tuple (before `_parse_order`). -/
structure RawOrder where
  salt : Nat
  maker : String
  signer : String
  taker : String
  tokenId : Nat
  makerAmount : Nat
  takerAmount : Nat
  expiration : Nat
  nonce : Nat
  feeRateBps : Nat
  side : Nat
  signatureType : Nat
  signature : List Nat
  deriving DecidableEq, Repr

/-- The raw Python tuple returned by `eth_abi.decode` for the full schema. -/
structure RawMatchOrders where
  takerOrder : RawOrder
  makerOrders : List RawOrder
  takerFillAmount : Nat
  takerReceiveAmount : Nat
  makerFillAmounts : List Nat
  takerFeeAmount : Nat
  makerFeeAmounts : List Nat
  deriving DecidableEq, Repr

/-- Read the 32-byte word at absolute offset `off`, failing past the end. -/
def readWord (data : List Nat) (off : Nat) : Option (List Nat) :=
  if off + 32 ≤ data.length then some ((data.drop off).take 32) else none

/-- Decode a `uint256` at `off`. -/
def decodeUint (data : List Nat) (off : Nat) : Option Nat := do
  let w ← readWord data off
  pure (wordToNat w)

/-- Decode a `uint8` at `off`: the word's 31 high-order padding bytes must
be zero (the library validates padding). -/
def decodeUint8 (data : List Nat) (off : Nat) : Option Nat := do
  let v ← decodeUint data off
  if v < 256 then pure v else none

/-- Decode an `address` at `off`: 12 zero padding bytes then 20 address
bytes, returned as a lowercase `0x`-prefixed hex string (the library's
normalized-address rendering). -/
def decodeAddress (data : List Nat) (off : Nat) : Option String := do
  let v ← decodeUint data off
  if v < 256 ^ 20 then pure (String.mk ('0' :: 'x' :: natToHexFixed 40 v))
  else none

/-- Decode dynamic `bytes` whose frame starts at absolute offset `off`:
a length word, the payload, and zero padding up to a 32-byte boundary. -/
def decodeBytesAt (data : List Nat) (off : Nat) : Option (List Nat) := do
  let n ← decodeUint data off
  if off + 32 + pad32 n ≤ data.length then
    let payload := (data.drop (off + 32)).take n
    let padding := ((data.drop (off + 32)).drop n).take (pad32 n - n)
    if padding.all (· == 0) then pure payload else none
  else none

/-- Decode one order tuple whose frame starts at absolute offset `frame`:
12 static head words, an offset word for the dynamic `signature`, then the
signature bytes at `frame + offset`. -/
def decodeOrderAt (data : List Nat) (frame : Nat) : Option RawOrder := do
  let salt ← decodeUint data frame
  let maker ← decodeAddress data (frame + 32)
  let signer ← decodeAddress data (frame + 64)
  let taker ← decodeAddress data (frame + 96)
  let tokenId ← decodeUint data (frame + 128)
  let makerAmount ← decodeUint data (frame + 160)
  let takerAmount ← decodeUint data (frame + 192)
  let expiration ← decodeUint data (frame + 224)
  let nonce ← decodeUint data (frame + 256)
  let feeRateBps ← decodeUint data (frame + 288)
  let side ← decodeUint8 data (frame + 320)
  let signatureType ← decodeUint8 data (frame + 352)
  let sigOff ← decodeUint data (frame + 384)
  let signature ← decodeBytesAt data (frame + sigOff)
  pure ⟨salt, maker, signer, taker, tokenId, makerAmount, takerAmount,
        expiration, nonce, feeRateBps, side, signatureType, signature⟩

/-- Decode `Order[]` whose frame starts at `frame`: a length word, then one
offset word per element (relative to the end of the length word), each
pointing at an order tuple frame. -/
def decodeOrderArrayAt (data : List Nat) (frame : Nat) : Option (List RawOrder) := do
  let n ← decodeUint data frame
  let base := frame + 32
  (List.range n).mapM (fun i => do
    let off ← decodeUint data (base + 32 * i)
    decodeOrderAt data (base + off))

/-- Decode `uint256[]` whose frame starts at `frame`. -/
def decodeUintArrayAt (data : List Nat) (frame : Nat) : Option (List Nat) := do
  let n ← decodeUint data frame
  (List.range n).mapM (fun i => decodeUint data (frame + 32 + 32 * i))

/-- `eth_abi.decode(MATCH_ORDERS_ABI_TYPES, data)`: seven head slots; the
two order components, and the two `uint256[]`s, are dynamic (offsets). -/
def decodeMatchOrders (data : List Nat) : Option RawMatchOrders := do
  let takerOff ← decodeUint data 0
  let takerOrder ← decodeOrderAt data takerOff
  let makersOff ← decodeUint data 32
  let makerOrders ← decodeOrderArrayAt data makersOff
  let takerFillAmount ← decodeUint data 64
  let takerReceiveAmount ← decodeUint data 96
  let fillsOff ← decodeUint data 128
  let makerFillAmounts ← decodeUintArrayAt data fillsOff
  let takerFeeAmount ← decodeUint data 160
  let feesOff ← decodeUint data 192
  let makerFeeAmounts ← decodeUintArrayAt data feesOff
  pure ⟨takerOrder, makerOrders, takerFillAmount, takerReceiveAmount,
        makerFillAmounts, takerFeeAmount, makerFeeAmounts⟩

/-! ## `TransactionDecoder` (`src/core/decoder.py`) -/

namespace TransactionDecoder

/-- `_parse_order`: order tuple → `DecodedOrder` (`token_id` rendered as a
decimal string via `str(...)`). -/
def parse_order (o : RawOrder) : DecodedOrder :=
  { salt := o.salt
    maker := o.maker
    signer := o.signer
    taker := o.taker
    token_id := toString o.tokenId
    maker_amount := o.makerAmount
    taker_amount := o.takerAmount
    expiration := o.expiration
    nonce := o.nonce
    fee_rate_bps := o.feeRateBps
    side := o.side
    signature_type := o.signatureType
    signature := o.signature }

/-- `_extract_orders`: taker order first, then the maker orders in their
encoded order. -/
def extract_orders (d : RawMatchOrders) : List DecodedOrder :=
  parse_order d.takerOrder :: d.makerOrders.map parse_order

/-- `tx_input[2:] if tx_input.startswith("0x") else tx_input`. -/
def strip0x : List Char → List Char
  | '0' :: 'x' :: r => r
  | cs => cs

/-- `TransactionDecoder.decode`: hex-decode (minus an optional `0x`
prefix), require at least 4 bytes, require the `matchOrders` selector, then
ABI-decode; every failure path is the caught-exception `None`. -/
def decode (tx_input : String) : Option (List DecodedOrder) :=
  match bytesFromHexChars (strip0x tx_input.toList) with
  | none => none
  | some input_bytes =>
    if input_bytes.length < 4 then none
    else if input_bytes.take 4 ≠ MATCH_ORDERS_SELECTOR then none
    else
      match decodeMatchOrders (input_bytes.drop 4) with
      | none => none
      | some decoded => some (extract_orders decoded)

end TransactionDecoder

/-! ## `WalletFilter` (`src/core/wallet_filter.py`) -/

/-- `WalletFilter`: `target_wallets` is `None` (track-all) when constructed
from an empty list, else the lowercased set (modelled as a list, membership
being all that is used). -/
structure WalletFilter where
  target_wallets : Option (List String)
  deriving DecidableEq, Repr

namespace WalletFilter

/-- `WalletFilter.__init__`: an empty `target_wallets` list is falsy in
Python, giving `None`; otherwise each wallet is lowercased. -/
def init (target_wallets : List String) : WalletFilter :=
  ⟨if target_wallets.isEmpty then none
   else some (target_wallets.map String.toLower)⟩

/-- `is_tracking_all` property. -/
def is_tracking_all (wf : WalletFilter) : Bool :=
  wf.target_wallets.isNone

/-- `_matches_wallet`: track-all matches everything; otherwise the maker,
lowercased, must be in the set. -/
def matches_wallet (wf : WalletFilter) (order : DecodedOrder) : Bool :=
  match wf.target_wallets with
  | none => true
  | some ws => ws.contains order.maker.toLower

/-- `_is_successful`: `receipt is not None and int(receipt["status"], 16) == 1`.
Indexing a missing `status` key raises `KeyError`; a non-hex status string
makes `int(_, 16)` raise `ValueError`. -/
def is_successful (receipt : Option Receipt) : Except PyErr Bool :=
  match receipt with
  | none => .ok false
  | some r =>
    match r.status with
    | none => .error .keyError
    | some s =>
      match pyIntHex s with
      | none => .error .valueError
      | some v => .ok (v == 1)

/-- `WalletFilter.filter`: `None` unless the receipt is successful, else
the first order whose maker matches. -/
def filter (wf : WalletFilter) (orders : List DecodedOrder)
    (receipt : Option Receipt) : Except PyErr (Option DecodedOrder) := do
  let ok ← is_successful receipt
  if ok then pure (orders.find? (wf.matches_wallet))
  else pure none

end WalletFilter

/-! ## `BlockProcessor` (`src/core/block_processor.py`)

`process_block` fetches the block and receipts through the client; here it
is a function of the fetched data, so that claims quantify over block and
receipt contents. -/

/-- The receipt lookup `{r["transactionHash"]: r for r in receipts}` read
at key `h`: a Python dict comprehension keeps the last entry per key. -/
def receiptLookup (receipts : List Receipt) (h : String) : Option Receipt :=
  receipts.reverse.find? (fun r => r.transactionHash == h)

namespace BlockProcessor

/-- `_process_transaction`: decode the input (`tx["input"]` raises
`KeyError` when absent), skip on no orders (`None` or empty are both
falsy), else run the wallet filter and build the `TradeData`. -/
def process_transaction (wf : WalletFilter) (tx : Tx) (block_number : Nat)
    (receipt : Option Receipt) : Except PyErr (Option TradeData) :=
  match tx.input with
  | none => Except.error PyErr.keyError
  | some inp =>
    match TransactionDecoder.decode inp with
    | none => .ok none
    | some orders =>
      if orders.isEmpty then .ok none
      else
        wf.filter orders receipt >>= fun m =>
          match m with
          | none => .ok none
          | some matching_order =>
            .ok (some
              { block_number := block_number
                transaction_hash := tx.hash
                wallet := matching_order.maker
                token_id := matching_order.token_id
                side := matching_order.side
                maker_amount := matching_order.maker_amount
                taker_amount := matching_order.taker_amount })

/-- The per-transaction loop of `process_block`, accumulating trades in
transaction order and propagating the first exception. -/
def process_txs (wf : WalletFilter) (block_number : Nat)
    (receipts : List Receipt) : List Tx → Except PyErr (List TradeData)
  | [] => .ok []
  | tx :: rest => do
    let receipt := receiptLookup receipts tx.hash
    let trade? ← process_transaction wf tx block_number receipt
    let trades ← process_txs wf block_number receipts rest
    match trade? with
    | some t => pure (t :: trades)
    | none => pure trades

/-- `process_block` on already-fetched data: build the receipt lookup and
process each transaction in block order. -/
def process_block (wf : WalletFilter) (block_number : Nat)
    (transactions : List Tx) (receipts : List Receipt) :
    Except PyErr (List TradeData) :=
  process_txs wf block_number receipts transactions

end BlockProcessor

/-! ## `TradeDownloader` (`src/downloader.py`) -/

namespace TradeDownloader

/-- The per-transaction body of `_process_block`'s loop: decode
`tx.get("input", "")`, skip when no orders; skip unless the looked-up
receipt exists and `receipt.get("status")` is exactly the string `"0x1"`;
otherwise record a trade from `orders[0]`. -/
def process_tx (block_number : Nat) (receipts : List Receipt) (tx : Tx) :
    Option TradeData :=
  match TransactionDecoder.decode (tx.input.getD "") with
  | none => none
  | some orders =>
    if h : orders.isEmpty then none
    else
      match receiptLookup receipts tx.hash with
      | none => none
      | some receipt =>
        if receipt.status ≠ some "0x1" then none
        else
          let order := orders.head (by simpa [List.isEmpty_iff] using h)
          some
            { block_number := block_number
              transaction_hash := tx.hash
              wallet := order.maker
              token_id := order.token_id
              side := order.side
              maker_amount := order.maker_amount
              taker_amount := order.taker_amount }

/-- `_process_block` on already-fetched data: trades in transaction order,
plus the block's transaction count. -/
def process_block (block_number : Nat) (transactions : List Tx)
    (receipts : List Receipt) : List TradeData × Nat :=
  (transactions.filterMap (process_tx block_number receipts),
   transactions.length)

end TradeDownloader

/-! ## RPC retry loop (`TradeDownloader._rpc_call`, `src/constants.py`) -/

/-- `RPC_MAX_RETRIES = 3` (`src/constants.py`). -/
def RPC_MAX_RETRIES : Nat := 3

/-- `RPC_RETRY_DELAY_SECONDS = 1.0` (`src/constants.py`); exact as a
rational. -/
def RPC_RETRY_DELAY_SECONDS : ℚ := 1

/-- The JSON body of a 200 response: an optional `error` member and an
optional `result` member (`none` models an absent key). -/
structure RpcBody where
  error : Option String
  result : Option String
  deriving DecidableEq, Repr

/-- What one HTTP attempt observes: a transport-level failure (requests
exception / timeout), or a response with a status code and a body (`none`
body models a non-JSON payload, where `resp.json()` raises). -/
inductive RpcOutcome where
  | transport
  | http (status : Nat) (body : Option RpcBody)
  deriving DecidableEq, Repr

/-- The `try` body of `_rpc_call` for one attempt: HTTP 429 raises, any
other non-200 status raises, an `error` member raises, a missing `result`
member raises (`KeyError`); otherwise the result is returned. -/
def attemptResult (o : RpcOutcome) : Except String String :=
  match o with
  | .transport => .error "transport error"
  | .http status body =>
    if status == 429 then .error "Rate limited (HTTP 429)"
    else if status != 200 then .error ("HTTP " ++ toString status)
    else
      match body with
      | none => .error "invalid JSON body"
      | some b =>
        match b.error with
        | some m => .error ("RPC error: " ++ m)
        | none =>
          match b.result with
          | none => .error "KeyError: result"
          | some r => .ok r

/-- The retry loop of `_rpc_call` from attempt number `attempt` with
`remaining` attempts left: on failure with attempts left, sleep
`RPC_RETRY_DELAY_SECONDS * 2^(attempt-1)` and retry; on the last attempt
re-raise the last error.  Returns the outcome and the list of sleeps. -/
def rpcCallFrom (outcomes : Nat → RpcOutcome) :
    Nat → Nat → Except String String × List ℚ
  | _, 0 => (.error "unreachable", [])
  | attempt, remaining + 1 =>
    match attemptResult (outcomes attempt) with
    | .ok v => (.ok v, [])
    | .error e =>
      if remaining == 0 then (.error e, [])
      else
        let d := RPC_RETRY_DELAY_SECONDS * 2 ^ (attempt - 1)
        let rec_ := rpcCallFrom outcomes (attempt + 1) remaining
        (rec_.1, d :: rec_.2)

/-- `_rpc_call`: attempts numbered `1..RPC_MAX_RETRIES`, where
`outcomes k` is what attempt `k` observes. -/
def rpcCall (outcomes : Nat → RpcOutcome) : Except String String × List ℚ :=
  rpcCallFrom outcomes 1 RPC_MAX_RETRIES

/-! ## `TradeDownloader.download` (`src/downloader.py`)

The download loop is modelled as a function of a fetch oracle
`fetch : blockNumber → transactions × receipts` (the data `_fetch_block`
would return, all fetches succeeding), returning the list of `on_trades`
invocations in order. -/

/-- `range(0, total, batch_size)` slicing, with explicit fuel so that the
definition computes by `rfl`/`decide`; fuel `l.length` is always enough
for a positive `size`.  (`batch_size = 0` would make Python's `range`
raise; it is unreachable because `max_rps ≥ 1` in any run.) -/
def chunksGo (size : Nat) : Nat → List Nat → List (List Nat)
  | _, [] => []
  | 0, _ :: _ => []
  | fuel + 1, l@(_ :: _) => l.take size :: chunksGo size fuel (l.drop size)

/-- Partition a block list into consecutive batches of `size`. -/
def chunksOf (size : Nat) (l : List Nat) : List (List Nat) :=
  chunksGo size l.length l

namespace TradeDownloader

/-- One batch's collected trades: futures are collected in submission
order, which is the batch's (ascending) block order. -/
def batchTrades (fetch : Nat → List Tx × List Receipt) (batch : List Nat) :
    List TradeData :=
  (batch.map (fun b => (process_block b (fetch b).1 (fetch b).2).1)).flatten

/-- `download`: resolve the range, split `[start_block, end_block]` into
batches of `max_rps * 2`, process batches in order, and call `on_trades`
once per batch that produced any trades.  The returned list is the
sequence of `on_trades` arguments.  `head` is what `eth_blockNumber`
reports when `end_block` is unset. -/
def download (fetch : Nat → List Tx × List Receipt) (max_rps : Nat)
    (start_block end_block : Option Nat) (max_blocks : Nat) (head : Nat) :
    List (List TradeData) :=
  let eb := end_block.getD head
  -- `max(0, end_block - max_blocks)`: truncated Nat subtraction is that max
  let sb := start_block.getD (eb - max_blocks)
  let all_blocks := List.range' sb (eb + 1 - sb)
  let batch_size := max_rps * 2
  (chunksOf batch_size all_blocks).filterMap (fun batch =>
    let bt := batchTrades fetch batch
    if bt.isEmpty then none else some bt)

end TradeDownloader

/-! ## Live monitor (`src/monitor.py`, `src/api/polygon.py`) -/

/-- An event emitted by `TradeMonitor.emit`. -/
inductive MonitorEvent where
  | transaction (t : TradeData)
  | error (e : String)
  | close (reason : String)
  deriving DecidableEq, Repr

/-- A WebSocket message, reduced to what `subscribe_blocks` reads: the
block number for a subscription notification (a message with a `params`
member), `none` otherwise. -/
structure WsMsg where
  params : Option Nat
  deriving DecidableEq, Repr

namespace TradeMonitor

/-- `_on_block`: on success one `"transaction"` event per trade in order;
any exception is caught and reported as a single `"error"` event. -/
def on_block (result : Except String (List TradeData)) : List MonitorEvent :=
  match result with
  | .ok trades => trades.map MonitorEvent.transaction
  | .error e => [MonitorEvent.error e]

/-- The subscription loop of `subscribe_blocks`, driving `_on_block` for
each notification: messages without `params` are skipped, and the loop
always continues to the next message (`_on_block` never raises). -/
def subscribeRun (process : Nat → Except String (List TradeData))
    (msgs : List WsMsg) : List MonitorEvent :=
  ((msgs.filterMap (fun m => m.params)).map (fun b => on_block (process b))).flatten

end TradeMonitor

/-! ## Canonical `matchOrders` call encoding

Spec-side definition (section 4.1's "well-formed encoded call"): the
canonical ABI encoding of a `matchOrders` invocation.  Claims about
well-formed inputs quantify over the image of this encoder. -/

/-- The field values of one order, before encoding.  Addresses are the
numeric 20-byte values. -/
structure OrderSpec where
  salt : Nat
  maker : Nat
  signer : Nat
  taker : Nat
  tokenId : Nat
  makerAmount : Nat
  takerAmount : Nat
  expiration : Nat
  nonce : Nat
  feeRateBps : Nat
  side : Nat
  signatureType : Nat
  signature : List Nat
  deriving DecidableEq, Repr

/-- Range constraints making an `OrderSpec` encodable: numeric fields fit
their ABI types and the signature is a byte list. -/
def OrderSpec.Valid (o : OrderSpec) : Prop :=
  o.salt < 256 ^ 32 ∧ o.maker < 256 ^ 20 ∧ o.signer < 256 ^ 20 ∧
  o.taker < 256 ^ 20 ∧ o.tokenId < 256 ^ 32 ∧ o.makerAmount < 256 ^ 32 ∧
  o.takerAmount < 256 ^ 32 ∧ o.expiration < 256 ^ 32 ∧ o.nonce < 256 ^ 32 ∧
  o.feeRateBps < 256 ^ 32 ∧ o.side < 256 ∧ o.signatureType < 256 ∧
  o.signature.length < 256 ^ 32 ∧ ∀ b ∈ o.signature, b < 256

instance (o : OrderSpec) : Decidable o.Valid := by
  unfold OrderSpec.Valid; infer_instance

/-- Canonical encoding of a dynamic `bytes` value: length word, payload,
zero padding to a 32-byte boundary. -/
def encodeBytesVal (bs : List Nat) : List Nat :=
  word32 bs.length ++ bs ++ List.replicate (pad32 bs.length - bs.length) 0

/-- The thirteen head words of an order tuple: twelve static fields and
the tail offset (`13 * 32 = 416`) of the `signature` bytes. -/
def orderHeadWords (o : OrderSpec) : List (List Nat) :=
  [word32 o.salt, word32 o.maker, word32 o.signer, word32 o.taker,
   word32 o.tokenId, word32 o.makerAmount, word32 o.takerAmount,
   word32 o.expiration, word32 o.nonce, word32 o.feeRateBps,
   word32 o.side, word32 o.signatureType, word32 416]

/-- Canonical encoding of one order tuple. -/
def encodeOrder (o : OrderSpec) : List Nat :=
  (orderHeadWords o).flatten ++ encodeBytesVal o.signature

/-- Canonical encoding of `Order[]`: length word, per-element tail
offsets, then the element encodings. -/
def encodeOrderList (ms : List OrderSpec) : List Nat :=
  let sizes := ms.map (fun m => (encodeOrder m).length)
  let offsets := (List.range ms.length).map
    (fun i => 32 * ms.length + ((sizes.take i).sum))
  word32 ms.length ++ (offsets.map word32).flatten ++
    (ms.map encodeOrder).flatten

/-- Canonical encoding of `uint256[]`. -/
def encodeUintList (xs : List Nat) : List Nat :=
  word32 xs.length ++ (xs.map word32).flatten

/-- Canonical encoding of the full `matchOrders` argument tuple: seven
head slots (offsets for the four dynamic components, inline words for the
three static ones) followed by the four dynamic tails in order. -/
def encodeMatchOrders (t : OrderSpec) (ms : List OrderSpec)
    (takerFillAmount takerReceiveAmount : Nat) (makerFillAmounts : List Nat)
    (takerFeeAmount : Nat) (makerFeeAmounts : List Nat) : List Nat :=
  let st := encodeOrder t
  let sm := encodeOrderList ms
  let sa := encodeUintList makerFillAmounts
  [word32 224, word32 (224 + st.length), word32 takerFillAmount,
   word32 takerReceiveAmount, word32 (224 + st.length + sm.length),
   word32 takerFeeAmount,
   word32 (224 + st.length + sm.length + sa.length)].flatten ++
    st ++ sm ++ sa ++ encodeUintList makerFeeAmounts

/-- The full wire form of a well-formed call: `0x`, the selector, the
encoded arguments, rendered in hex. -/
def matchOrdersInputHex (t : OrderSpec) (ms : List OrderSpec)
    (takerFillAmount takerReceiveAmount : Nat) (makerFillAmounts : List Nat)
    (takerFeeAmount : Nat) (makerFeeAmounts : List Nat) : String :=
  String.mk ('0' :: 'x' :: bytesToHexChars
    (MATCH_ORDERS_SELECTOR ++
      encodeMatchOrders t ms takerFillAmount takerReceiveAmount
        makerFillAmounts takerFeeAmount makerFeeAmounts))

/-- The `DecodedOrder` the decoder is expected to produce for an encoded
`OrderSpec`: addresses rendered as lowercase hex, `token_id` in decimal. -/
def expectedOrder (o : OrderSpec) : DecodedOrder :=
  { salt := o.salt
    maker := String.mk ('0' :: 'x' :: natToHexFixed 40 o.maker)
    signer := String.mk ('0' :: 'x' :: natToHexFixed 40 o.signer)
    taker := String.mk ('0' :: 'x' :: natToHexFixed 40 o.taker)
    token_id := toString o.tokenId
    maker_amount := o.makerAmount
    taker_amount := o.takerAmount
    expiration := o.expiration
    nonce := o.nonce
    fee_rate_bps := o.feeRateBps
    side := o.side
    signature_type := o.signatureType
    signature := o.signature }

/-- The `RawOrder` value `eth_abi` is expected to produce for an encoded
`OrderSpec`. -/
def rawOfSpec (o : OrderSpec) : RawOrder :=
  { salt := o.salt
    maker := String.mk ('0' :: 'x' :: natToHexFixed 40 o.maker)
    signer := String.mk ('0' :: 'x' :: natToHexFixed 40 o.signer)
    taker := String.mk ('0' :: 'x' :: natToHexFixed 40 o.taker)
    tokenId := o.tokenId
    makerAmount := o.makerAmount
    takerAmount := o.takerAmount
    expiration := o.expiration
    nonce := o.nonce
    feeRateBps := o.feeRateBps
    side := o.side
    signatureType := o.signatureType
    signature := o.signature }

/-! ## Word and hex round-trip lemmas -/

theorem lsbBytes_length (k v : Nat) : (lsbBytes k v).length = k := by
  induction k generalizing v with
  | zero => simp [lsbBytes]
  | succ k ih => simp [lsbBytes, ih]

theorem word32_length (v : Nat) : (word32 v).length = 32 := by
  simp [word32, lsbBytes_length]

theorem lsbBytes_lt (k v : Nat) : ∀ b ∈ lsbBytes k v, b < 256 := by
  induction k generalizing v with
  | zero => simp [lsbBytes]
  | succ k ih =>
    intro b hb
    simp only [lsbBytes, List.mem_cons] at hb
    rcases hb with h | h
    · omega
    · exact ih _ _ h

theorem word32_lt (v : Nat) : ∀ b ∈ word32 v, b < 256 := by
  intro b hb
  exact lsbBytes_lt 32 v b (List.mem_reverse.mp hb)

theorem wordToNat_reverse_lsbBytes (k v : Nat) :
    wordToNat ((lsbBytes k v).reverse) = v % 256 ^ k := by
  induction k generalizing v with
  | zero => simp [lsbBytes, wordToNat, Nat.mod_one]
  | succ k ih =>
    have : wordToNat ((lsbBytes k (v / 256)).reverse ++ [v % 256]) =
        wordToNat ((lsbBytes k (v / 256)).reverse) * 256 + v % 256 := by
      simp [wordToNat, List.foldl_append]
    simp only [lsbBytes, List.reverse_cons, this, ih]
    rw [Nat.pow_succ', Nat.mod_mul]
    ring

theorem wordToNat_word32 (v : Nat) (h : v < 256 ^ 32) :
    wordToNat (word32 v) = v := by
  rw [word32, wordToNat_reverse_lsbBytes, Nat.mod_eq_of_lt h]

theorem hexDigitVal_hexChar : ∀ d < 16, hexDigitVal (hexChar d) = some d := by
  decide

theorem bytesToHexChars_cons (b : Nat) (bs : List Nat) :
    bytesToHexChars (b :: bs) =
      hexChar (b / 16) :: hexChar (b % 16) :: bytesToHexChars bs := by
  simp [bytesToHexChars]

theorem bytesFromHex_bytesToHex (bs : List Nat) (h : ∀ b ∈ bs, b < 256) :
    bytesFromHexChars (bytesToHexChars bs) = some bs := by
  induction bs with
  | nil => simp [bytesToHexChars, bytesFromHexChars]
  | cons b t ih =>
    have hb : b < 256 := h b (List.mem_cons_self _ _)
    have h1 : b / 16 < 16 := by omega
    have h2 : b % 16 < 16 := by omega
    rw [bytesToHexChars_cons]
    simp only [bytesFromHexChars, hexDigitVal_hexChar _ h1,
      hexDigitVal_hexChar _ h2, Option.bind_eq_bind]
    rw [ih (fun x hx => h x (List.mem_cons_of_mem _ hx))]
    simp only [Option.some_bind]
    have : b / 16 * 16 + b % 16 = b := by omega
    simp [this]

/-! ## Reading back from concatenated encodings -/

theorem readWord_at (pre mid post : List Nat) (k : Nat)
    (h : k + 32 ≤ mid.length) :
    readWord (pre ++ mid ++ post) (pre.length + k) =
      some ((mid.drop k).take 32) := by
  have hlen : pre.length + k + 32 ≤ (pre ++ mid ++ post).length := by
    simp [List.length_append]; omega
  have hdrop : (pre ++ mid ++ post).drop (pre.length + k) =
      mid.drop k ++ post := by
    rw [List.append_assoc, List.drop_append, List.drop_append_of_le_length (by omega)]
  have htake : (mid.drop k ++ post).take 32 = (mid.drop k).take 32 := by
    apply List.take_append_of_le_length
    simp [List.length_drop]; omega
  unfold readWord
  rw [if_pos hlen, hdrop, htake]

theorem decodeUint_at (pre mid post : List Nat) (k : Nat)
    (h : k + 32 ≤ mid.length) :
    decodeUint (pre ++ mid ++ post) (pre.length + k) =
      some (wordToNat ((mid.drop k).take 32)) := by
  simp only [decodeUint, readWord_at pre mid post k h, Option.bind_eq_bind,
    Option.some_bind, Option.pure_def]

/-- Words of a flattened list of 32-byte words: slice `i` is word `i`. -/
theorem flatten_words_slice (words : List (List Nat))
    (hw : ∀ w ∈ words, w.length = 32) :
    ∀ i, i < words.length →
      (((words.flatten).drop (32 * i)).take 32) = words.getD i [] := by
  induction words with
  | nil => intro i hi; simp at hi
  | cons w t ih =>
    intro i hi
    have hwlen : w.length = 32 := hw w (List.mem_cons_self _ _)
    cases i with
    | zero =>
      simp only [Nat.mul_zero, List.drop_zero, List.flatten_cons, List.getD]
      rw [List.take_append_of_le_length (by omega), List.take_of_length_le (by omega)]
      rfl
    | succ i =>
      simp only [List.flatten_cons, List.getD_cons_succ]
      have : 32 * (i + 1) = w.length + 32 * i := by omega
      rw [this, List.drop_append]
      exact ih (fun x hx => hw x (List.mem_cons_of_mem _ hx)) i (by simpa using hi)

theorem flatten_words_length (words : List (List Nat))
    (hw : ∀ w ∈ words, w.length = 32) :
    (words.flatten).length = 32 * words.length := by
  induction words with
  | nil => simp
  | cons w t ih =>
    simp only [List.flatten_cons, List.length_append, List.length_cons]
    rw [hw w (List.mem_cons_self _ _), ih (fun x hx => hw x (List.mem_cons_of_mem _ hx))]
    omega

/-- Reading head word `i` of a flattened word region. -/
theorem decodeUint_words (pre post : List Nat) (words : List (List Nat))
    (hw : ∀ w ∈ words, w.length = 32) (i : Nat) (hi : i < words.length) :
    decodeUint (pre ++ words.flatten ++ post) (pre.length + 32 * i) =
      some (wordToNat (words.getD i [])) := by
  have h : 32 * i + 32 ≤ (words.flatten).length := by
    rw [flatten_words_length words hw]; omega
  rw [decodeUint_at pre (words.flatten) post (32 * i) h,
    flatten_words_slice words hw i hi]

/-! ## Byte-range and length facts about the canonical encoder -/

theorem le_pad32 (n : Nat) : n ≤ pad32 n := by
  unfold pad32; omega

theorem encodeBytesVal_length (bs : List Nat) :
    (encodeBytesVal bs).length = 32 + pad32 bs.length := by
  have := le_pad32 bs.length
  simp [encodeBytesVal, word32_length]
  omega

theorem orderHeadWords_length32 (o : OrderSpec) :
    ∀ w ∈ orderHeadWords o, w.length = 32 := by
  intro w hw
  simp only [orderHeadWords, List.mem_cons, List.not_mem_nil, or_false] at hw
  rcases hw with h | h | h | h | h | h | h | h | h | h | h | h | h <;>
    simp [h, word32_length]

theorem orderHeadWords_flatten_length (o : OrderSpec) :
    ((orderHeadWords o).flatten).length = 416 := by
  rw [flatten_words_length _ (orderHeadWords_length32 o)]
  simp [orderHeadWords]

theorem encodeOrder_length (o : OrderSpec) :
    (encodeOrder o).length = 448 + pad32 o.signature.length := by
  rw [encodeOrder, List.length_append, orderHeadWords_flatten_length,
    encodeBytesVal_length]
  omega

theorem encodeBytesVal_lt (bs : List Nat) (h : ∀ b ∈ bs, b < 256) :
    ∀ x ∈ encodeBytesVal bs, x < 256 := by
  intro x hx
  simp only [encodeBytesVal, List.mem_append, List.mem_replicate] at hx
  rcases hx with (hx | hx) | hx
  · exact word32_lt _ _ hx
  · exact h x hx
  · omega

theorem flatten_words32_lt (words : List (List Nat))
    (h : ∀ w ∈ words, ∃ v, w = word32 v) :
    ∀ x ∈ words.flatten, x < 256 := by
  intro x hx
  rcases List.mem_flatten.mp hx with ⟨w, hw, hxw⟩
  rcases h w hw with ⟨v, rfl⟩
  exact word32_lt v x hxw

theorem orderHeadWords_are_words (o : OrderSpec) :
    ∀ w ∈ orderHeadWords o, ∃ v, w = word32 v := by
  intro w hw
  simp only [orderHeadWords, List.mem_cons, List.not_mem_nil, or_false] at hw
  rcases hw with h | h | h | h | h | h | h | h | h | h | h | h | h <;>
    exact ⟨_, h⟩

theorem encodeOrder_lt (o : OrderSpec) (h : ∀ b ∈ o.signature, b < 256) :
    ∀ x ∈ encodeOrder o, x < 256 := by
  intro x hx
  simp only [encodeOrder, List.mem_append] at hx
  rcases hx with hx | hx
  · exact flatten_words32_lt _ (orderHeadWords_are_words o) x hx
  · exact encodeBytesVal_lt _ h x hx

theorem encodeOrderList_lt (ms : List OrderSpec)
    (h : ∀ m ∈ ms, ∀ b ∈ m.signature, b < 256) :
    ∀ x ∈ encodeOrderList ms, x < 256 := by
  intro x hx
  simp only [encodeOrderList, List.mem_append] at hx
  rcases hx with (hx | hx) | hx
  · exact word32_lt _ x hx
  · refine flatten_words32_lt _ ?_ x hx
    intro w hw
    rcases List.mem_map.mp hw with ⟨v, _, rfl⟩
    exact ⟨v, rfl⟩
  · rcases List.mem_flatten.mp hx with ⟨w, hw, hxw⟩
    rcases List.mem_map.mp hw with ⟨m, hm, rfl⟩
    exact encodeOrder_lt m (h m hm) x hxw

theorem encodeUintList_lt (xs : List Nat) :
    ∀ x ∈ encodeUintList xs, x < 256 := by
  intro x hx
  simp only [encodeUintList, List.mem_append] at hx
  rcases hx with hx | hx
  · exact word32_lt _ x hx
  · refine flatten_words32_lt _ ?_ x hx
    intro w hw
    rcases List.mem_map.mp hw with ⟨v, _, rfl⟩
    exact ⟨v, rfl⟩

theorem encodeMatchOrders_lt (t : OrderSpec) (ms : List OrderSpec)
    (f1 f2 : Nat) (a1 : List Nat) (f3 : Nat) (a2 : List Nat)
    (ht : ∀ b ∈ t.signature, b < 256)
    (hms : ∀ m ∈ ms, ∀ b ∈ m.signature, b < 256) :
    ∀ x ∈ encodeMatchOrders t ms f1 f2 a1 f3 a2, x < 256 := by
  intro x hx
  simp only [encodeMatchOrders, List.mem_append] at hx
  rcases hx with (((hx | hx) | hx) | hx) | hx
  · refine flatten_words32_lt _ ?_ x hx
    intro w hw
    simp only [List.mem_cons, List.not_mem_nil, or_false] at hw
    rcases hw with h | h | h | h | h | h | h <;> exact ⟨_, h⟩
  · exact encodeOrder_lt t ht x hx
  · exact encodeOrderList_lt ms hms x hx
  · exact encodeUintList_lt a1 x hx
  · exact encodeUintList_lt a2 x hx

/-! ## Round trip: decoding the canonical encoding -/

theorem wordToNat_take_word32 (v : Nat) (post : List Nat) (h : v < 256 ^ 32) :
    wordToNat ((word32 v ++ post).take 32) = v := by
  rw [List.take_append_of_le_length (by rw [word32_length]),
    List.take_of_length_le (by rw [word32_length]), wordToNat_word32 v h]

theorem decodeUint_word32_here (pre post : List Nat) (v : Nat)
    (h : v < 256 ^ 32) :
    decodeUint (pre ++ word32 v ++ post) pre.length = some v := by
  have h0 : (0 : Nat) + 32 ≤ (word32 v).length := by rw [word32_length]
  have hx := decodeUint_at pre (word32 v) post 0 h0
  rw [Nat.add_zero] at hx
  rw [List.drop_zero, List.take_of_length_le (by simp [word32_length]),
    wordToNat_word32 v h] at hx
  exact hx

theorem decodeBytesAt_encode (pre post bs : List Nat)
    (hlen : bs.length < 256 ^ 32) :
    decodeBytesAt (pre ++ encodeBytesVal bs ++ post) pre.length = some bs := by
  have hpad := le_pad32 bs.length
  have hdata : pre ++ encodeBytesVal bs ++ post =
      pre ++ word32 bs.length ++
        (bs ++ (List.replicate (pad32 bs.length - bs.length) 0 ++ post)) := by
    simp [encodeBytesVal, List.append_assoc]
  have hn : decodeUint (pre ++ encodeBytesVal bs ++ post) pre.length =
      some bs.length := by
    rw [hdata]; exact decodeUint_word32_here _ _ _ hlen
  have hlen2 : (pre ++ encodeBytesVal bs ++ post).length =
      pre.length + (32 + pad32 bs.length) + post.length := by
    simp only [List.length_append, encodeBytesVal_length]
  have hbound : pre.length + 32 + pad32 bs.length ≤
      (pre ++ encodeBytesVal bs ++ post).length := by
    rw [hlen2]; omega
  have hpre32 : (pre ++ word32 bs.length).length = pre.length + 32 := by
    simp [word32_length]
  have hdrop : (pre ++ encodeBytesVal bs ++ post).drop (pre.length + 32) =
      bs ++ (List.replicate (pad32 bs.length - bs.length) 0 ++ post) := by
    rw [hdata, List.drop_left' hpre32]
  have hpayload : ((pre ++ encodeBytesVal bs ++ post).drop
      (pre.length + 32)).take bs.length = bs := by
    rw [hdrop, List.take_append_of_le_length (le_refl _), List.take_length]
  have hpadding : (((pre ++ encodeBytesVal bs ++ post).drop
      (pre.length + 32)).drop bs.length).take (pad32 bs.length - bs.length) =
      List.replicate (pad32 bs.length - bs.length) 0 := by
    rw [hdrop, List.drop_left,
      List.take_append_of_le_length (by simp), List.take_of_length_le (by simp)]
  simp only [decodeBytesAt, hn, Option.bind_eq_bind, Option.some_bind]
  rw [if_pos hbound]
  rw [hpayload, hpadding]
  simp [List.all_eq_true, List.mem_replicate]

theorem addr_lt_word (a : Nat) (h : a < 256 ^ 20) : a < 256 ^ 32 :=
  lt_of_lt_of_le h (Nat.pow_le_pow_right (by norm_num) (by norm_num))

theorem decodeUint_words_getD (pre post : List Nat) (words : List (List Nat))
    (hw : ∀ w ∈ words, w.length = 32) (i : Nat) (hi : i < words.length)
    (v : Nat) (hv : words.getD i [] = word32 v) (hvlt : v < 256 ^ 32) :
    decodeUint (pre ++ words.flatten ++ post) (pre.length + 32 * i) =
      some v := by
  rw [decodeUint_words pre post words hw i hi, hv, wordToNat_word32 v hvlt]

theorem decodeOrderAt_encode (pre post : List Nat) (o : OrderSpec)
    (ho : o.Valid) :
    decodeOrderAt (pre ++ encodeOrder o ++ post) pre.length =
      some (rawOfSpec o) := by
  obtain ⟨h1, h2, h3, h4, h5, h6, h7, h8, h9, h10, h11, h12, h13, h14⟩ := ho
  have hw := orderHeadWords_length32 o
  have hdata : pre ++ encodeOrder o ++ post =
      pre ++ (orderHeadWords o).flatten ++ (encodeBytesVal o.signature ++ post) := by
    simp [encodeOrder, List.append_assoc]
  have hcnt : (orderHeadWords o).length = 13 := by simp [orderHeadWords]
  have e0 := decodeUint_words_getD pre (encodeBytesVal o.signature ++ post) (orderHeadWords o) hw 0
    (by omega) o.salt rfl h1
  have e1 := decodeUint_words_getD pre (encodeBytesVal o.signature ++ post) (orderHeadWords o) hw 1
    (by omega) o.maker rfl (addr_lt_word _ h2)
  have e2 := decodeUint_words_getD pre (encodeBytesVal o.signature ++ post) (orderHeadWords o) hw 2
    (by omega) o.signer rfl (addr_lt_word _ h3)
  have e3 := decodeUint_words_getD pre (encodeBytesVal o.signature ++ post) (orderHeadWords o) hw 3
    (by omega) o.taker rfl (addr_lt_word _ h4)
  have e4 := decodeUint_words_getD pre (encodeBytesVal o.signature ++ post) (orderHeadWords o) hw 4
    (by omega) o.tokenId rfl h5
  have e5 := decodeUint_words_getD pre (encodeBytesVal o.signature ++ post) (orderHeadWords o) hw 5
    (by omega) o.makerAmount rfl h6
  have e6 := decodeUint_words_getD pre (encodeBytesVal o.signature ++ post) (orderHeadWords o) hw 6
    (by omega) o.takerAmount rfl h7
  have e7 := decodeUint_words_getD pre (encodeBytesVal o.signature ++ post) (orderHeadWords o) hw 7
    (by omega) o.expiration rfl h8
  have e8 := decodeUint_words_getD pre (encodeBytesVal o.signature ++ post) (orderHeadWords o) hw 8
    (by omega) o.nonce rfl h9
  have e9 := decodeUint_words_getD pre (encodeBytesVal o.signature ++ post) (orderHeadWords o) hw 9
    (by omega) o.feeRateBps rfl h10
  have e10 := decodeUint_words_getD pre (encodeBytesVal o.signature ++ post) (orderHeadWords o) hw 10
    (by omega) o.side rfl (by omega)
  have e11 := decodeUint_words_getD pre (encodeBytesVal o.signature ++ post) (orderHeadWords o) hw 11
    (by omega) o.signatureType rfl (by omega)
  have e12 := decodeUint_words_getD pre (encodeBytesVal o.signature ++ post) (orderHeadWords o) hw 12
    (by omega) 416 rfl (by norm_num)
  rw [← hdata] at e0 e1 e2 e3 e4 e5 e6 e7 e8 e9 e10 e11 e12
  simp only [Nat.reduceMul, Nat.mul_zero, Nat.add_zero] at e0 e1 e2 e3 e4 e5 e6 e7 e8 e9 e10 e11 e12
  have esig : decodeBytesAt (pre ++ encodeOrder o ++ post)
      (pre.length + 416) = some o.signature := by
    have hplen : (pre ++ (orderHeadWords o).flatten).length =
        pre.length + 416 := by
      rw [List.length_append, orderHeadWords_flatten_length]
    have := decodeBytesAt_encode (pre ++ (orderHeadWords o).flatten) post
      o.signature h13
    rw [hplen] at this
    rw [← this]
    congr 1
    simp [encodeOrder, List.append_assoc]
  have ha : decodeAddress (pre ++ encodeOrder o ++ post) (pre.length + 32) =
      some (String.mk ('0' :: 'x' :: natToHexFixed 40 o.maker)) := by
    simp only [decodeAddress, e1, Option.bind_eq_bind, Option.some_bind]
    rw [if_pos h2]
    rfl
  have hb : decodeAddress (pre ++ encodeOrder o ++ post) (pre.length + 64) =
      some (String.mk ('0' :: 'x' :: natToHexFixed 40 o.signer)) := by
    simp only [decodeAddress, e2, Option.bind_eq_bind, Option.some_bind]
    rw [if_pos h3]
    rfl
  have hc : decodeAddress (pre ++ encodeOrder o ++ post) (pre.length + 96) =
      some (String.mk ('0' :: 'x' :: natToHexFixed 40 o.taker)) := by
    simp only [decodeAddress, e3, Option.bind_eq_bind, Option.some_bind]
    rw [if_pos h4]
    rfl
  have hu10 : decodeUint8 (pre ++ encodeOrder o ++ post)
      (pre.length + 320) = some o.side := by
    simp only [decodeUint8, e10, Option.bind_eq_bind, Option.some_bind]
    rw [if_pos h11]
    rfl
  have hu11 : decodeUint8 (pre ++ encodeOrder o ++ post)
      (pre.length + 352) = some o.signatureType := by
    simp only [decodeUint8, e11, Option.bind_eq_bind, Option.some_bind]
    rw [if_pos h12]
    rfl
  simp only [decodeOrderAt, e0, ha, hb, hc, e4, e5, e6, e7, e8, e9, hu10,
    hu11, e12, esig, Option.bind_eq_bind, Option.some_bind]
  rfl

/-! ## Round trip for the dynamic arrays -/

theorem sum_take_le (l : List Nat) (i : Nat) : (l.take i).sum ≤ l.sum := by
  conv_rhs => rw [← List.take_append_drop i l]
  rw [List.sum_append]
  omega

theorem mapM_range'_eq_some {β : Type} (f : Nat → Option β) :
    ∀ (l : List β) (s : Nat),
      (∀ j (h : j < l.length), f (s + j) = some (l.get ⟨j, h⟩)) →
      (List.range' s l.length).mapM f = some l := by
  intro l
  induction l with
  | nil => intro s _; rfl
  | cons b t ih =>
    intro s hf
    have h0 : f s = some b := by
      have := hf 0 (by simp)
      simpa using this
    have ht : (List.range' (s + 1) t.length).mapM f = some t := by
      apply ih
      intro j hj
      have := hf (j + 1) (by simpa using Nat.succ_lt_succ hj)
      have harith : s + (j + 1) = s + 1 + j := by omega
      rw [harith] at this
      simpa using this
    simp only [List.length_cons, List.range'_succ, List.mapM_cons, h0, ht]
    rfl

/-- Decomposing a flattened map at element `i`. -/
theorem flatten_map_decomp {α β : Type} (f : α → List β) (ms : List α)
    (i : Nat) (hi : i < ms.length) :
    (ms.map f).flatten =
      ((ms.take i).map f).flatten ++ f (ms.get ⟨i, hi⟩) ++
        ((ms.drop (i + 1)).map f).flatten := by
  have h : ms = ms.take i ++ ms.get ⟨i, hi⟩ :: ms.drop (i + 1) := by
    conv_lhs => rw [← List.take_append_drop i ms]
    rw [List.drop_eq_getElem_cons hi]
    rfl
  conv_lhs => rw [h]
  rw [List.map_append, List.map_cons, List.flatten_append, List.flatten_cons,
    List.append_assoc]

theorem flatten_map_take_length (ms : List OrderSpec) (i : Nat) :
    (((ms.take i).map encodeOrder).flatten).length =
      (((ms.map (fun m => (encodeOrder m).length)).take i)).sum := by
  rw [List.length_flatten, List.map_map, ← List.map_take]
  rfl

theorem getD_map_word32 {α : Type} (g : α → Nat) (xs : List α) (j : Nat)
    (hj : j < xs.length) :
    ((xs.map (fun x => word32 (g x))).getD j []) = word32 (g (xs.get ⟨j, hj⟩)) := by
  rw [List.getD_eq_getElem?_getD, List.getElem?_eq_getElem (by simpa using hj)]
  simp

theorem getD_map_map_word32 {α : Type} (g : α → Nat) (xs : List α) (j : Nat)
    (hj : j < xs.length) :
    (((xs.map g).map word32).getD j []) = word32 (g (xs.get ⟨j, hj⟩)) := by
  rw [List.map_map]
  exact getD_map_word32 g xs j hj

theorem decodeUintArrayAt_encode (pre post : List Nat) (xs : List Nat)
    (hx : ∀ x ∈ xs, x < 256 ^ 32) (hlen : xs.length < 256 ^ 32) :
    decodeUintArrayAt (pre ++ encodeUintList xs ++ post) pre.length =
      some xs := by
  have hd1 : pre ++ encodeUintList xs ++ post =
      pre ++ word32 xs.length ++ ((xs.map word32).flatten ++ post) := by
    simp [encodeUintList, List.append_assoc]
  have hn : decodeUint (pre ++ encodeUintList xs ++ post) pre.length =
      some xs.length := by
    rw [hd1]; exact decodeUint_word32_here _ _ _ hlen
  have hpre32 : (pre ++ word32 xs.length).length = pre.length + 32 := by
    simp [word32_length]
  have hwords : ∀ w ∈ xs.map word32, w.length = 32 := by
    intro w hw
    rcases List.mem_map.mp hw with ⟨v, _, rfl⟩
    exact word32_length v
  have helem : ∀ j (h : j < xs.length),
      decodeUint (pre ++ encodeUintList xs ++ post)
        (pre.length + 32 + 32 * j) = some (xs.get ⟨j, h⟩) := by
    intro j hj
    have hg : ((xs.map word32).getD j []) = word32 (xs.get ⟨j, hj⟩) := by
      have := getD_map_word32 (fun x => x) xs j hj
      simpa using this
    have := decodeUint_words_getD (pre ++ word32 xs.length) post
      (xs.map word32) hwords j (by simpa using hj) (xs.get ⟨j, hj⟩) hg
      (hx _ (xs.get_mem j hj))
    rw [hpre32] at this
    rw [hd1]
    rw [← List.append_assoc]
    exact this
  simp only [decodeUintArrayAt, hn, Option.bind_eq_bind, Option.some_bind]
  rw [List.range_eq_range']
  have hr : (List.range' 0 xs.length).mapM
      (fun i => decodeUint (pre ++ encodeUintList xs ++ post)
        (pre.length + 32 + 32 * i)) = some xs := by
    apply mapM_range'_eq_some
    intro j hj
    rw [Nat.zero_add]
    exact helem j hj
  exact hr

theorem decodeOrderArrayAt_encode (pre post : List Nat) (ms : List OrderSpec)
    (hv : ∀ m ∈ ms, m.Valid)
    (hsz : 32 * ms.length +
      (ms.map (fun m => (encodeOrder m).length)).sum < 256 ^ 32) :
    decodeOrderArrayAt (pre ++ encodeOrderList ms ++ post) pre.length =
      some (ms.map rawOfSpec) := by
  have hd1 : pre ++ encodeOrderList ms ++ post =
      pre ++ word32 ms.length ++
        ((((List.range ms.length).map (fun i => 32 * ms.length +
            ((ms.map (fun m => (encodeOrder m).length)).take i).sum)).map
              word32).flatten ++
          ((ms.map encodeOrder).flatten ++ post)) := by
    simp [encodeOrderList, List.append_assoc]
  have hn : decodeUint (pre ++ encodeOrderList ms ++ post) pre.length =
      some ms.length := by
    rw [hd1]; exact decodeUint_word32_here _ _ _ (by omega)
  have hwlen : ∀ w ∈ ((List.range ms.length).map (fun i => 32 * ms.length +
      ((ms.map (fun m => (encodeOrder m).length)).take i).sum)).map word32,
      w.length = 32 := by
    intro w hw
    rcases List.mem_map.mp hw with ⟨v, _, rfl⟩
    exact word32_length v
  have hoflatlen : ((((List.range ms.length).map (fun i => 32 * ms.length +
      ((ms.map (fun m => (encodeOrder m).length)).take i).sum)).map
        word32).flatten).length = 32 * ms.length := by
    rw [flatten_words_length _ hwlen]
    simp
  have hpre32 : (pre ++ word32 ms.length).length = pre.length + 32 := by
    simp [word32_length]
  have hoff : ∀ j (hj : j < ms.length),
      decodeUint (pre ++ encodeOrderList ms ++ post)
        (pre.length + 32 + 32 * j) =
        some (32 * ms.length +
          ((ms.map (fun m => (encodeOrder m).length)).take j).sum) := by
    intro j hj
    have hgd := getD_map_map_word32
      (fun i => 32 * ms.length +
        ((ms.map (fun m => (encodeOrder m).length)).take i).sum)
      (List.range ms.length) j (by simpa using hj)
    have hget : (List.range ms.length).get ⟨j, by simpa using hj⟩ = j := by
      simp [List.get_eq_getElem]
    rw [hget] at hgd
    have hb : 32 * ms.length +
        ((ms.map (fun m => (encodeOrder m).length)).take j).sum < 256 ^ 32 := by
      have := sum_take_le (ms.map (fun m => (encodeOrder m).length)) j
      omega
    have := decodeUint_words_getD (pre ++ word32 ms.length)
      ((ms.map encodeOrder).flatten ++ post)
      (((List.range ms.length).map (fun i => 32 * ms.length +
        ((ms.map (fun m => (encodeOrder m).length)).take i).sum)).map word32)
      hwlen j (by simpa using hj) _ hgd hb
    rw [hpre32] at this
    rw [hd1, ← List.append_assoc]
    exact this
  have helem : ∀ j (hj : j < ms.length),
      decodeOrderAt (pre ++ encodeOrderList ms ++ post)
        (pre.length + 32 + (32 * ms.length +
          ((ms.map (fun m => (encodeOrder m).length)).take j).sum)) =
        some (rawOfSpec (ms.get ⟨j, hj⟩)) := by
    intro j hj
    have hsplit := flatten_map_decomp encodeOrder ms j hj
    have hform : pre ++ encodeOrderList ms ++ post =
        (pre ++ word32 ms.length ++
          (((List.range ms.length).map (fun i => 32 * ms.length +
            ((ms.map (fun m => (encodeOrder m).length)).take i).sum)).map
              word32).flatten ++
          ((ms.take j).map encodeOrder).flatten) ++
        encodeOrder (ms.get ⟨j, hj⟩) ++
        (((ms.drop (j + 1)).map encodeOrder).flatten ++ post) := by
      rw [hd1, hsplit]
      simp [List.append_assoc]
    have hplen : (pre ++ word32 ms.length ++
        (((List.range ms.length).map (fun i => 32 * ms.length +
          ((ms.map (fun m => (encodeOrder m).length)).take i).sum)).map
            word32).flatten ++
        ((ms.take j).map encodeOrder).flatten).length =
        pre.length + 32 + (32 * ms.length +
          ((ms.map (fun m => (encodeOrder m).length)).take j).sum) := by
      simp only [List.length_append, hoflatlen, flatten_map_take_length,
        word32_length]
      omega
    have := decodeOrderAt_encode
      (pre ++ word32 ms.length ++
        (((List.range ms.length).map (fun i => 32 * ms.length +
          ((ms.map (fun m => (encodeOrder m).length)).take i).sum)).map
            word32).flatten ++
        ((ms.take j).map encodeOrder).flatten)
      (((ms.drop (j + 1)).map encodeOrder).flatten ++ post)
      (ms.get ⟨j, hj⟩) (hv _ (ms.get_mem j hj))
    rw [hplen] at this
    rw [hform]
    exact this
  simp only [decodeOrderArrayAt, hn, Option.bind_eq_bind, Option.some_bind]
  rw [List.range_eq_range']
  have hlenmap : (ms.map rawOfSpec).length = ms.length := by simp
  rw [← hlenmap]
  apply mapM_range'_eq_some
  intro j hj
  have hj' : j < ms.length := by simpa using hj
  rw [Nat.zero_add]
  simp only [hoff j hj', Option.bind_eq_bind, Option.some_bind]
  rw [helem j hj']
  congr 1
  simp [List.get_eq_getElem]

theorem encodeOrderList_length (ms : List OrderSpec) :
    (encodeOrderList ms).length =
      32 + 32 * ms.length + (ms.map (fun m => (encodeOrder m).length)).sum := by
  have hw : ∀ w ∈ (((List.range ms.length).map (fun i => 32 * ms.length +
      ((ms.map (fun m => (encodeOrder m).length)).take i).sum)).map word32),
      w.length = 32 := by
    intro w hw
    rcases List.mem_map.mp hw with ⟨v, _, rfl⟩
    exact word32_length v
  have h1 : ((((List.range ms.length).map (fun i => 32 * ms.length +
      ((ms.map (fun m => (encodeOrder m).length)).take i).sum)).map
        word32).flatten).length = 32 * ms.length := by
    rw [flatten_words_length _ hw]
    simp
  simp only [encodeOrderList]
  rw [List.length_append, List.length_append, word32_length, h1,
    List.length_flatten, List.map_map]
  rfl

theorem encodeUintList_length (xs : List Nat) :
    (encodeUintList xs).length = 32 + 32 * xs.length := by
  have hw : ∀ w ∈ xs.map word32, w.length = 32 := by
    intro w hw
    rcases List.mem_map.mp hw with ⟨v, _, rfl⟩
    exact word32_length v
  simp [encodeUintList, word32_length, flatten_words_length _ hw]

theorem decodeMatchOrders_eq_chain (data : List Nat) :
    decodeMatchOrders data =
      (decodeUint data 0).bind (fun takerOff =>
      (decodeOrderAt data takerOff).bind (fun takerOrder =>
      (decodeUint data 32).bind (fun makersOff =>
      (decodeOrderArrayAt data makersOff).bind (fun makerOrders =>
      (decodeUint data 64).bind (fun takerFillAmount =>
      (decodeUint data 96).bind (fun takerReceiveAmount =>
      (decodeUint data 128).bind (fun fillsOff =>
      (decodeUintArrayAt data fillsOff).bind (fun makerFillAmounts =>
      (decodeUint data 160).bind (fun takerFeeAmount =>
      (decodeUint data 192).bind (fun feesOff =>
      (decodeUintArrayAt data feesOff).bind (fun makerFeeAmounts =>
      some ⟨takerOrder, makerOrders, takerFillAmount, takerReceiveAmount,
        makerFillAmounts, takerFeeAmount, makerFeeAmounts⟩))))))))))) := rfl

theorem decodeUint_words_getD_addr (pre post : List Nat)
    (words : List (List Nat)) (hw : ∀ w ∈ words, w.length = 32) (i : Nat)
    (hi : i < words.length) (v : Nat) (hv : words.getD i [] = word32 v)
    (hvlt : v < 256 ^ 32) (a : Nat) (ha : a = pre.length + 32 * i) :
    decodeUint (pre ++ words.flatten ++ post) a = some v := by
  rw [ha]
  exact decodeUint_words_getD pre post words hw i hi v hv hvlt

/-- The seven head-slot reads of a 7-word head region, stated for
variable word values so that instantiation at large terms is cheap. -/
theorem head7_read (v0 v1 v2 v3 v4 v5 v6 : Nat) (post : List Nat)
    (h0 : v0 < 256 ^ 32) (h1 : v1 < 256 ^ 32) (h2 : v2 < 256 ^ 32)
    (h3 : v3 < 256 ^ 32) (h4 : v4 < 256 ^ 32) (h5 : v5 < 256 ^ 32)
    (h6 : v6 < 256 ^ 32) :
    decodeUint (([word32 v0, word32 v1, word32 v2, word32 v3, word32 v4,
      word32 v5, word32 v6]).flatten ++ post) 0 = some v0 ∧
    decodeUint (([word32 v0, word32 v1, word32 v2, word32 v3, word32 v4,
      word32 v5, word32 v6]).flatten ++ post) 32 = some v1 ∧
    decodeUint (([word32 v0, word32 v1, word32 v2, word32 v3, word32 v4,
      word32 v5, word32 v6]).flatten ++ post) 64 = some v2 ∧
    decodeUint (([word32 v0, word32 v1, word32 v2, word32 v3, word32 v4,
      word32 v5, word32 v6]).flatten ++ post) 96 = some v3 ∧
    decodeUint (([word32 v0, word32 v1, word32 v2, word32 v3, word32 v4,
      word32 v5, word32 v6]).flatten ++ post) 128 = some v4 ∧
    decodeUint (([word32 v0, word32 v1, word32 v2, word32 v3, word32 v4,
      word32 v5, word32 v6]).flatten ++ post) 160 = some v5 ∧
    decodeUint (([word32 v0, word32 v1, word32 v2, word32 v3, word32 v4,
      word32 v5, word32 v6]).flatten ++ post) 192 = some v6 := by
  have hw : ∀ w ∈ [word32 v0, word32 v1, word32 v2, word32 v3, word32 v4,
      word32 v5, word32 v6], w.length = 32 := by
    intro w hw
    simp only [List.mem_cons, List.not_mem_nil, or_false] at hw
    rcases hw with h | h | h | h | h | h | h <;> simp [h, word32_length]
  have k0 := decodeUint_words_getD ([] : List Nat) post
    [word32 v0, word32 v1, word32 v2, word32 v3, word32 v4, word32 v5,
      word32 v6] hw 0 (by norm_num) v0 rfl h0
  have k1 := decodeUint_words_getD ([] : List Nat) post
    [word32 v0, word32 v1, word32 v2, word32 v3, word32 v4, word32 v5,
      word32 v6] hw 1 (by norm_num) v1 rfl h1
  have k2 := decodeUint_words_getD ([] : List Nat) post
    [word32 v0, word32 v1, word32 v2, word32 v3, word32 v4, word32 v5,
      word32 v6] hw 2 (by norm_num) v2 rfl h2
  have k3 := decodeUint_words_getD ([] : List Nat) post
    [word32 v0, word32 v1, word32 v2, word32 v3, word32 v4, word32 v5,
      word32 v6] hw 3 (by norm_num) v3 rfl h3
  have k4 := decodeUint_words_getD ([] : List Nat) post
    [word32 v0, word32 v1, word32 v2, word32 v3, word32 v4, word32 v5,
      word32 v6] hw 4 (by norm_num) v4 rfl h4
  have k5 := decodeUint_words_getD ([] : List Nat) post
    [word32 v0, word32 v1, word32 v2, word32 v3, word32 v4, word32 v5,
      word32 v6] hw 5 (by norm_num) v5 rfl h5
  have k6 := decodeUint_words_getD ([] : List Nat) post
    [word32 v0, word32 v1, word32 v2, word32 v3, word32 v4, word32 v5,
      word32 v6] hw 6 (by norm_num) v6 rfl h6
  rw [List.nil_append, List.length_nil, Nat.zero_add, Nat.mul_zero] at k0
  rw [List.nil_append, List.length_nil, Nat.zero_add, Nat.mul_one] at k1
  rw [List.nil_append, List.length_nil, Nat.zero_add,
    (by norm_num : (32 : Nat) * 2 = 64)] at k2
  rw [List.nil_append, List.length_nil, Nat.zero_add,
    (by norm_num : (32 : Nat) * 3 = 96)] at k3
  rw [List.nil_append, List.length_nil, Nat.zero_add,
    (by norm_num : (32 : Nat) * 4 = 128)] at k4
  rw [List.nil_append, List.length_nil, Nat.zero_add,
    (by norm_num : (32 : Nat) * 5 = 160)] at k5
  rw [List.nil_append, List.length_nil, Nat.zero_add,
    (by norm_num : (32 : Nat) * 6 = 192)] at k6
  exact ⟨k0, k1, k2, k3, k4, k5, k6⟩

theorem decodeMatchOrders_encode (t : OrderSpec) (ms : List OrderSpec)
    (f1 f2 : Nat) (a1 : List Nat) (f3 : Nat) (a2 : List Nat)
    (ht : t.Valid) (hv : ∀ m ∈ ms, m.Valid)
    (hf1 : f1 < 256 ^ 32) (hf2 : f2 < 256 ^ 32) (hf3 : f3 < 256 ^ 32)
    (ha1 : ∀ x ∈ a1, x < 256 ^ 32) (ha2 : ∀ x ∈ a2, x < 256 ^ 32)
    (htot : (encodeMatchOrders t ms f1 f2 a1 f3 a2).length < 256 ^ 32) :
    decodeMatchOrders (encodeMatchOrders t ms f1 f2 a1 f3 a2) =
      some ⟨rawOfSpec t, ms.map rawOfSpec, f1, f2, a1, f3, a2⟩ := by
  have hw : ∀ w ∈ [word32 224, word32 (224 + (encodeOrder t).length),
      word32 f1, word32 f2,
      word32 (224 + (encodeOrder t).length + (encodeOrderList ms).length),
      word32 f3,
      word32 (224 + (encodeOrder t).length + (encodeOrderList ms).length +
        (encodeUintList a1).length)], w.length = 32 := by
    intro w hw
    simp only [List.mem_cons, List.not_mem_nil, or_false] at hw
    rcases hw with h | h | h | h | h | h | h <;> simp [h, word32_length]
  have hheads : (([word32 224, word32 (224 + (encodeOrder t).length),
      word32 f1, word32 f2,
      word32 (224 + (encodeOrder t).length + (encodeOrderList ms).length),
      word32 f3,
      word32 (224 + (encodeOrder t).length + (encodeOrderList ms).length +
        (encodeUintList a1).length)]).flatten).length = 224 := by
    rw [flatten_words_length _ hw]
    norm_num
  have hform0 : encodeMatchOrders t ms f1 f2 a1 f3 a2 =
      ([word32 224, word32 (224 + (encodeOrder t).length),
        word32 f1, word32 f2,
        word32 (224 + (encodeOrder t).length + (encodeOrderList ms).length),
        word32 f3,
        word32 (224 + (encodeOrder t).length + (encodeOrderList ms).length +
          (encodeUintList a1).length)]).flatten ++
        encodeOrder t ++ encodeOrderList ms ++ encodeUintList a1 ++
        encodeUintList a2 := rfl
  have hlentot : (encodeMatchOrders t ms f1 f2 a1 f3 a2).length =
      224 + (encodeOrder t).length + (encodeOrderList ms).length +
        (encodeUintList a1).length + (encodeUintList a2).length := by
    rw [hform0, List.length_append, List.length_append, List.length_append,
      List.length_append, hheads]
  have hb1 : 224 + (encodeOrder t).length < 256 ^ 32 := by omega
  have hb2 : 224 + (encodeOrder t).length + (encodeOrderList ms).length <
      256 ^ 32 := by omega
  have hb3 : 224 + (encodeOrder t).length + (encodeOrderList ms).length +
      (encodeUintList a1).length < 256 ^ 32 := by omega
  have hd1 : encodeMatchOrders t ms f1 f2 a1 f3 a2 =
      ([word32 224, word32 (224 + (encodeOrder t).length),
        word32 f1, word32 f2,
        word32 (224 + (encodeOrder t).length + (encodeOrderList ms).length),
        word32 f3,
        word32 (224 + (encodeOrder t).length + (encodeOrderList ms).length +
          (encodeUintList a1).length)]).flatten ++
        (encodeOrder t ++ (encodeOrderList ms ++
          (encodeUintList a1 ++ encodeUintList a2))) := by
    rw [hform0, List.append_assoc, List.append_assoc, List.append_assoc]
  obtain ⟨e0, e1, e2, e3, e4, e5, e6⟩ := head7_read 224
    (224 + (encodeOrder t).length) f1 f2
    (224 + (encodeOrder t).length + (encodeOrderList ms).length) f3
    (224 + (encodeOrder t).length + (encodeOrderList ms).length +
      (encodeUintList a1).length)
    (encodeOrder t ++ (encodeOrderList ms ++
      (encodeUintList a1 ++ encodeUintList a2)))
    (by norm_num) hb1 hf1 hf2 hb2 hf3 hb3
  rw [← hd1] at e0 e1 e2 e3 e4 e5 e6
  have etaker : decodeOrderAt (encodeMatchOrders t ms f1 f2 a1 f3 a2) 224 =
      some (rawOfSpec t) := by
    have hform : encodeMatchOrders t ms f1 f2 a1 f3 a2 =
        ([word32 224, word32 (224 + (encodeOrder t).length),
          word32 f1, word32 f2,
          word32 (224 + (encodeOrder t).length + (encodeOrderList ms).length),
          word32 f3,
          word32 (224 + (encodeOrder t).length + (encodeOrderList ms).length +
            (encodeUintList a1).length)]).flatten ++
          encodeOrder t ++ (encodeOrderList ms ++
            (encodeUintList a1 ++ encodeUintList a2)) := by
      rw [hform0, List.append_assoc, List.append_assoc]
    have hx := decodeOrderAt_encode
      (([word32 224, word32 (224 + (encodeOrder t).length),
        word32 f1, word32 f2,
        word32 (224 + (encodeOrder t).length + (encodeOrderList ms).length),
        word32 f3,
        word32 (224 + (encodeOrder t).length + (encodeOrderList ms).length +
          (encodeUintList a1).length)]).flatten)
      (encodeOrderList ms ++ (encodeUintList a1 ++ encodeUintList a2))
      t ht
    rw [hheads] at hx
    rw [hform]
    exact hx
  have hszms : 32 * ms.length +
      (ms.map (fun m => (encodeOrder m).length)).sum < 256 ^ 32 := by
    have := encodeOrderList_length ms
    omega
  have emakers : decodeOrderArrayAt (encodeMatchOrders t ms f1 f2 a1 f3 a2)
      (224 + (encodeOrder t).length) = some (ms.map rawOfSpec) := by
    have hform : encodeMatchOrders t ms f1 f2 a1 f3 a2 =
        ([word32 224, word32 (224 + (encodeOrder t).length),
          word32 f1, word32 f2,
          word32 (224 + (encodeOrder t).length + (encodeOrderList ms).length),
          word32 f3,
          word32 (224 + (encodeOrder t).length + (encodeOrderList ms).length +
            (encodeUintList a1).length)]).flatten ++
          encodeOrder t ++ encodeOrderList ms ++
          (encodeUintList a1 ++ encodeUintList a2) := by
      rw [hform0, List.append_assoc]
    have hplen : (([word32 224, word32 (224 + (encodeOrder t).length),
        word32 f1, word32 f2,
        word32 (224 + (encodeOrder t).length + (encodeOrderList ms).length),
        word32 f3,
        word32 (224 + (encodeOrder t).length + (encodeOrderList ms).length +
          (encodeUintList a1).length)]).flatten ++ encodeOrder t).length =
        224 + (encodeOrder t).length := by
      rw [List.length_append, hheads]
    have hx := decodeOrderArrayAt_encode
      (([word32 224, word32 (224 + (encodeOrder t).length),
        word32 f1, word32 f2,
        word32 (224 + (encodeOrder t).length + (encodeOrderList ms).length),
        word32 f3,
        word32 (224 + (encodeOrder t).length + (encodeOrderList ms).length +
          (encodeUintList a1).length)]).flatten ++ encodeOrder t)
      (encodeUintList a1 ++ encodeUintList a2) ms hv hszms
    rw [hplen] at hx
    rw [hform]
    exact hx
  have ha1len : a1.length < 256 ^ 32 := by
    have := encodeUintList_length a1
    omega
  have ha2len : a2.length < 256 ^ 32 := by
    have := encodeUintList_length a2
    omega
  have efills : decodeUintArrayAt (encodeMatchOrders t ms f1 f2 a1 f3 a2)
      (224 + (encodeOrder t).length + (encodeOrderList ms).length) =
      some a1 := by
    have hplen : (([word32 224, word32 (224 + (encodeOrder t).length),
        word32 f1, word32 f2,
        word32 (224 + (encodeOrder t).length + (encodeOrderList ms).length),
        word32 f3,
        word32 (224 + (encodeOrder t).length + (encodeOrderList ms).length +
          (encodeUintList a1).length)]).flatten ++ encodeOrder t ++
        encodeOrderList ms).length =
        224 + (encodeOrder t).length + (encodeOrderList ms).length := by
      rw [List.length_append, List.length_append, hheads]
    have hx := decodeUintArrayAt_encode
      (([word32 224, word32 (224 + (encodeOrder t).length),
        word32 f1, word32 f2,
        word32 (224 + (encodeOrder t).length + (encodeOrderList ms).length),
        word32 f3,
        word32 (224 + (encodeOrder t).length + (encodeOrderList ms).length +
          (encodeUintList a1).length)]).flatten ++ encodeOrder t ++
        encodeOrderList ms)
      (encodeUintList a2) a1 ha1 ha1len
    rw [hplen] at hx
    rw [hform0]
    exact hx
  have efees : decodeUintArrayAt (encodeMatchOrders t ms f1 f2 a1 f3 a2)
      (224 + (encodeOrder t).length + (encodeOrderList ms).length +
        (encodeUintList a1).length) = some a2 := by
    have hplen : (([word32 224, word32 (224 + (encodeOrder t).length),
        word32 f1, word32 f2,
        word32 (224 + (encodeOrder t).length + (encodeOrderList ms).length),
        word32 f3,
        word32 (224 + (encodeOrder t).length + (encodeOrderList ms).length +
          (encodeUintList a1).length)]).flatten ++ encodeOrder t ++
        encodeOrderList ms ++ encodeUintList a1).length =
        224 + (encodeOrder t).length + (encodeOrderList ms).length +
          (encodeUintList a1).length := by
      rw [List.length_append, List.length_append, List.length_append, hheads]
    have hx := decodeUintArrayAt_encode
      (([word32 224, word32 (224 + (encodeOrder t).length),
        word32 f1, word32 f2,
        word32 (224 + (encodeOrder t).length + (encodeOrderList ms).length),
        word32 f3,
        word32 (224 + (encodeOrder t).length + (encodeOrderList ms).length +
          (encodeUintList a1).length)]).flatten ++ encodeOrder t ++
        encodeOrderList ms ++ encodeUintList a1)
      [] a2 ha2 ha2len
    rw [List.append_nil] at hx
    rw [hplen] at hx
    rw [hform0]
    exact hx
  rw [decodeMatchOrders_eq_chain]
  simp only [e0, e1, e2, e3, e4, e5, e6, etaker, emakers, efills, efees,
    Option.some_bind]

/-! ## Round trip at the `TransactionDecoder.decode` level -/

theorem OrderSpec.Valid.sig_lt {o : OrderSpec} (h : o.Valid) :
    ∀ b ∈ o.signature, b < 256 :=
  h.2.2.2.2.2.2.2.2.2.2.2.2.2

/-- `decode` on a hex input that parses to `bs` with the right selector
reduces to the ABI decode of the remainder. -/
theorem decode_of_bytes (s : String) (bs : List Nat)
    (hs : bytesFromHexChars (TransactionDecoder.strip0x s.toList) = some bs)
    (hlen : ¬ bs.length < 4) (hsel : bs.take 4 = MATCH_ORDERS_SELECTOR)
    (d : RawMatchOrders) (hd : decodeMatchOrders (bs.drop 4) = some d) :
    TransactionDecoder.decode s = some (TransactionDecoder.extract_orders d) := by
  unfold TransactionDecoder.decode
  rw [hs]
  dsimp only
  rw [if_neg hlen, hsel, if_neg (fun h => h rfl), hd]

theorem decode_matchOrdersInputHex (t : OrderSpec) (ms : List OrderSpec)
    (f1 f2 : Nat) (a1 : List Nat) (f3 : Nat) (a2 : List Nat)
    (ht : t.Valid) (hv : ∀ m ∈ ms, m.Valid)
    (hf1 : f1 < 256 ^ 32) (hf2 : f2 < 256 ^ 32) (hf3 : f3 < 256 ^ 32)
    (ha1 : ∀ x ∈ a1, x < 256 ^ 32) (ha2 : ∀ x ∈ a2, x < 256 ^ 32)
    (htot : (encodeMatchOrders t ms f1 f2 a1 f3 a2).length < 256 ^ 32) :
    TransactionDecoder.decode
        (matchOrdersInputHex t ms f1 f2 a1 f3 a2) =
      some (expectedOrder t :: ms.map expectedOrder) := by
  have hall : ∀ b ∈ MATCH_ORDERS_SELECTOR ++
      encodeMatchOrders t ms f1 f2 a1 f3 a2, b < 256 := by
    intro b hb
    rcases List.mem_append.mp hb with h | h
    · have : b ∈ ([0x22, 0x87, 0xe3, 0x50] : List Nat) := h
      simp only [List.mem_cons, List.not_mem_nil, or_false] at this
      rcases this with h | h | h | h <;> omega
    · exact encodeMatchOrders_lt t ms f1 f2 a1 f3 a2 ht.sig_lt
        (fun m hm => (hv m hm).sig_lt) b h
  have hs : bytesFromHexChars (TransactionDecoder.strip0x
      (matchOrdersInputHex t ms f1 f2 a1 f3 a2).toList) =
      some (MATCH_ORDERS_SELECTOR ++ encodeMatchOrders t ms f1 f2 a1 f3 a2) := by
    have h1 : (matchOrdersInputHex t ms f1 f2 a1 f3 a2).toList =
        '0' :: 'x' :: bytesToHexChars (MATCH_ORDERS_SELECTOR ++
          encodeMatchOrders t ms f1 f2 a1 f3 a2) := rfl
    rw [h1]
    have h2 : TransactionDecoder.strip0x ('0' :: 'x' ::
        bytesToHexChars (MATCH_ORDERS_SELECTOR ++
          encodeMatchOrders t ms f1 f2 a1 f3 a2)) =
        bytesToHexChars (MATCH_ORDERS_SELECTOR ++
          encodeMatchOrders t ms f1 f2 a1 f3 a2) := rfl
    rw [h2]
    exact bytesFromHex_bytesToHex _ hall
  have hsel4 : (MATCH_ORDERS_SELECTOR : List Nat).length = 4 := rfl
  have hlen : ¬ (MATCH_ORDERS_SELECTOR ++
      encodeMatchOrders t ms f1 f2 a1 f3 a2).length < 4 := by
    rw [List.length_append, hsel4]
    omega
  have hsel : (MATCH_ORDERS_SELECTOR ++
      encodeMatchOrders t ms f1 f2 a1 f3 a2).take 4 =
      MATCH_ORDERS_SELECTOR :=
    List.take_left' hsel4
  have hdrop : (MATCH_ORDERS_SELECTOR ++
      encodeMatchOrders t ms f1 f2 a1 f3 a2).drop 4 =
      encodeMatchOrders t ms f1 f2 a1 f3 a2 :=
    List.drop_left' hsel4
  have hd : decodeMatchOrders ((MATCH_ORDERS_SELECTOR ++
      encodeMatchOrders t ms f1 f2 a1 f3 a2).drop 4) =
      some ⟨rawOfSpec t, ms.map rawOfSpec, f1, f2, a1, f3, a2⟩ := by
    rw [hdrop]
    exact decodeMatchOrders_encode t ms f1 f2 a1 f3 a2 ht hv hf1 hf2 hf3
      ha1 ha2 htot
  have hfin := decode_of_bytes (matchOrdersInputHex t ms f1 f2 a1 f3 a2)
    (MATCH_ORDERS_SELECTOR ++ encodeMatchOrders t ms f1 f2 a1 f3 a2)
    hs hlen hsel ⟨rawOfSpec t, ms.map rawOfSpec, f1, f2, a1, f3, a2⟩ hd
  rw [hfin]
  unfold TransactionDecoder.extract_orders
  rw [List.map_map]
  rfl

/-! ## WalletFilter facts -/

/-- A concrete order used by witnesses and counterexamples. -/
def plainOrder : DecodedOrder :=
  ⟨0, "0xAA", "0xAA", "0x0", "0", 1, 2, 0, 0, 0, 0, 0, []⟩

theorem filter_of_success (wf : WalletFilter) (orders : List DecodedOrder)
    (receipt : Option Receipt)
    (hs : WalletFilter.is_successful receipt = .ok true) :
    wf.filter orders receipt = .ok (orders.find? wf.matches_wallet) := by
  unfold WalletFilter.filter
  rw [hs]
  rfl

theorem filter_of_failure (wf : WalletFilter) (orders : List DecodedOrder)
    (receipt : Option Receipt)
    (hs : WalletFilter.is_successful receipt = .ok false) :
    wf.filter orders receipt = .ok none := by
  unfold WalletFilter.filter
  rw [hs]
  rfl

theorem init_target_of_ne (ws : List String) (h : ws ≠ []) :
    (WalletFilter.init ws).target_wallets = some (ws.map String.toLower) := by
  cases ws with
  | nil => exact absurd rfl h
  | cons w t => rfl

theorem matches_wallet_trackall (o : DecodedOrder) :
    (WalletFilter.init []).matches_wallet o = true := rfl

theorem contains_map_toLower (ws : List String) (m : String) :
    (ws.map String.toLower).contains m =
      ws.any (fun w => m == w.toLower) := by
  rw [List.contains_eq_any_beq, List.any_map]
  rfl

theorem matches_wallet_of_ne (ws : List String) (h : ws ≠ [])
    (o : DecodedOrder) :
    (WalletFilter.init ws).matches_wallet o =
      ws.any (fun w => o.maker.toLower == w.toLower) := by
  unfold WalletFilter.matches_wallet
  rw [init_target_of_ne ws h]
  exact contains_map_toLower ws o.maker.toLower

theorem find?_of_all_true {α : Type} (p : α → Bool) (l : List α)
    (hp : ∀ a, p a = true) : l.find? p = l.head? := by
  cases l with
  | nil => rfl
  | cons a t => rw [List.find?_cons_of_pos _ (hp a)]; rfl

instance {e a : Type} [DecidableEq e] [DecidableEq a] :
    DecidableEq (Except e a) := fun x y =>
  match x, y with
  | .ok u, .ok v =>
    if h : u = v then isTrue (by rw [h])
    else isFalse (fun hx => h (Except.ok.inj hx))
  | .error u, .error v =>
    if h : u = v then isTrue (by rw [h])
    else isFalse (fun hx => h (Except.error.inj hx))
  | .ok _, .error _ => isFalse (fun hx => Except.noConfusion hx)
  | .error _, .ok _ => isFalse (fun hx => Except.noConfusion hx)

theorem find?_congr_fun {α : Type} (p q : α → Bool) (l : List α)
    (h : ∀ a, p a = q a) : l.find? p = l.find? q := by
  induction l with
  | nil => rfl
  | cons a t ih =>
    simp only [List.find?]
    rw [h a, ih]

/-! ## Claims about the wallet filter (C2, C5) -/

/-- C2 (amended): `WalletFilter.filter` returns NONE, without raising,
whenever the receipt is absent, or present with a status string that
parses as a hexadecimal integer different from 1; a present receipt whose
status is missing or not hex-parseable instead raises
(`KeyError`/`ValueError`), contrary to the claim as stated. -/
theorem C2_filter_none_on_unsuccessful :
    (∀ (wf : WalletFilter) (orders : List DecodedOrder),
      wf.filter orders none = .ok none) ∧
    (∀ (wf : WalletFilter) (orders : List DecodedOrder) (r : Receipt)
      (s : String) (v : Int), r.status = some s → pyIntHex s = some v →
      v ≠ 1 → wf.filter orders (some r) = .ok none) := by
  constructor
  · intro wf orders
    exact filter_of_failure wf orders none rfl
  · intro wf orders r s v hst hv hne
    apply filter_of_failure
    unfold WalletFilter.is_successful
    dsimp only
    rw [hst]
    dsimp only
    rw [hv]
    dsimp only
    have : (v == 1) = false := by
      rw [beq_eq_false_iff_ne]
      exact hne
    rw [this]

/-- C2 counterexample: a receipt whose status field is present but not
parseable as a hexadecimal integer makes the filter raise `ValueError`
rather than return NONE. -/
theorem C2_counterexample :
    WalletFilter.filter (WalletFilter.init ["0xw"]) [plainOrder]
      (some ⟨"h", some "oops"⟩) ≠ Except.ok none := by decide

/-- C2 witness: concrete unsuccessful receipt (status `"0x0"`). -/
theorem C2_witness :
    (⟨"h", some "0x0"⟩ : Receipt).status = some "0x0" ∧
    pyIntHex "0x0" = some 0 ∧ (0 : Int) ≠ 1 ∧
    WalletFilter.filter (WalletFilter.init ["0xw"]) [plainOrder]
      (some ⟨"h", some "0x0"⟩) = .ok none :=
  ⟨rfl, by decide, by decide,
    C2_filter_none_on_unsuccessful.2 (WalletFilter.init ["0xw"]) [plainOrder]
      ⟨"h", some "0x0"⟩ "0x0" 0 rfl (by decide) (by decide)⟩

/-- C5: whenever the receipt indicates success, the filter returns the
first order whose maker is case-insensitively in the configured set (the
set lowercased at construction); with an empty configured list
(track-all) it returns order 0 of a non-empty list (`head?`). -/
theorem C5_filter_first_match (ws : List String)
    (orders : List DecodedOrder) (receipt : Option Receipt)
    (hs : WalletFilter.is_successful receipt = .ok true) :
    (ws ≠ [] → WalletFilter.filter (WalletFilter.init ws) orders receipt =
      .ok (orders.find?
        (fun o => ws.any (fun w => o.maker.toLower == w.toLower)))) ∧
    (ws = [] → WalletFilter.filter (WalletFilter.init ws) orders receipt =
      .ok orders.head?) := by
  constructor
  · intro hne
    rw [filter_of_success _ _ _ hs]
    congr 1
    apply find?_congr_fun
    intro o
    rw [matches_wallet_of_ne ws hne o]
  · intro hnil
    subst hnil
    rw [filter_of_success _ _ _ hs]
    rw [find?_of_all_true _ orders matches_wallet_trackall]

/-- C5 witness: a successful receipt, a one-wallet set matching the
order, and the track-all mode on the same order list. -/
theorem C5_witness :
    WalletFilter.is_successful (some ⟨"h", some "0x1"⟩) = .ok true ∧
    (["0xAA"] : List String) ≠ [] ∧
    WalletFilter.filter (WalletFilter.init ["0xAA"]) [plainOrder]
      (some ⟨"h", some "0x1"⟩) = .ok (some plainOrder) ∧
    WalletFilter.filter (WalletFilter.init [])
      [plainOrder] (some ⟨"h", some "0x1"⟩) = .ok (some plainOrder) := by
  refine ⟨by decide, by decide, ?_, ?_⟩
  · rw [(C5_filter_first_match ["0xAA"] _ _ (by decide)).1 (by decide)]
    have hp : (["0xAA"].any
        fun w => plainOrder.maker.toLower == w.toLower) = true := by
      simp [plainOrder]
    exact congrArg Except.ok (List.find?_cons_of_pos _ hp)
  · rw [(C5_filter_first_match [] _ _ (by decide)).2 rfl]
    rfl

/-! ## Claims about the decoder (C3, C4) -/

/-- C3: `TransactionDecoder.decode` is a total function and yields
NOT_APPLICABLE (`none`) on every failure mode the claim enumerates:
non-hex input (the caught `ValueError` of `bytes.fromhex`), inputs
shorter than 4 bytes, a selector other than `matchOrders`, and any input
whose remainder fails ABI decoding (the caught decoding error). -/
theorem C3_decode_not_applicable (s : String) :
    (bytesFromHexChars (TransactionDecoder.strip0x s.toList) = none →
      TransactionDecoder.decode s = none) ∧
    (∀ bs, bytesFromHexChars (TransactionDecoder.strip0x s.toList) = some bs →
      (bs.length < 4 → TransactionDecoder.decode s = none) ∧
      (bs.take 4 ≠ MATCH_ORDERS_SELECTOR →
        TransactionDecoder.decode s = none) ∧
      (decodeMatchOrders (bs.drop 4) = none →
        TransactionDecoder.decode s = none)) := by
  constructor
  · intro h
    unfold TransactionDecoder.decode
    rw [h]
  · intro bs hbs
    refine ⟨?_, ?_, ?_⟩
    · intro hlen
      unfold TransactionDecoder.decode
      rw [hbs]
      dsimp only
      rw [if_pos hlen]
    · intro hsel
      unfold TransactionDecoder.decode
      rw [hbs]
      dsimp only
      by_cases hlen : bs.length < 4
      · rw [if_pos hlen]
      · rw [if_neg hlen, if_pos hsel]
    · intro habi
      unfold TransactionDecoder.decode
      rw [hbs]
      dsimp only
      by_cases hlen : bs.length < 4
      · rw [if_pos hlen]
      · rw [if_neg hlen]
        by_cases hsel : bs.take 4 ≠ MATCH_ORDERS_SELECTOR
        · rw [if_pos hsel]
        · rw [if_neg hsel, habi]

/-- C3 witness: a non-hex input, a too-short input, and a wrong-selector
input each decode to `none`. -/
theorem C3_witness :
    bytesFromHexChars (TransactionDecoder.strip0x ("0xzz").toList) = none ∧
    TransactionDecoder.decode "0xzz" = none ∧
    bytesFromHexChars (TransactionDecoder.strip0x ("0xffff").toList) =
      some [0xff, 0xff] ∧
    TransactionDecoder.decode "0xffff" = none ∧
    TransactionDecoder.decode "0xdeadbeef00" = none := by
  refine ⟨by decide, (C3_decode_not_applicable "0xzz").1 (by decide),
    by decide, ((C3_decode_not_applicable "0xffff").2 [0xff, 0xff]
      (by decide)).1 (by decide),
    (((C3_decode_not_applicable "0xdeadbeef00").2 [0xde, 0xad, 0xbe, 0xef, 0]
      (by decide)).2).1 (by decide)⟩

/-- The top-level length decomposition of the canonical encoding. -/
theorem encodeMatchOrders_length (t : OrderSpec) (ms : List OrderSpec)
    (f1 f2 : Nat) (a1 : List Nat) (f3 : Nat) (a2 : List Nat) :
    (encodeMatchOrders t ms f1 f2 a1 f3 a2).length =
      224 + (encodeOrder t).length + (encodeOrderList ms).length +
        (encodeUintList a1).length + (encodeUintList a2).length := by
  have hw : ∀ w ∈ [word32 224, word32 (224 + (encodeOrder t).length),
      word32 f1, word32 f2,
      word32 (224 + (encodeOrder t).length + (encodeOrderList ms).length),
      word32 f3,
      word32 (224 + (encodeOrder t).length + (encodeOrderList ms).length +
        (encodeUintList a1).length)], w.length = 32 := by
    intro w hw
    simp only [List.mem_cons, List.not_mem_nil, or_false] at hw
    rcases hw with h | h | h | h | h | h | h <;> simp [h, word32_length]
  have hheads : (([word32 224, word32 (224 + (encodeOrder t).length),
      word32 f1, word32 f2,
      word32 (224 + (encodeOrder t).length + (encodeOrderList ms).length),
      word32 f3,
      word32 (224 + (encodeOrder t).length + (encodeOrderList ms).length +
        (encodeUintList a1).length)]).flatten).length = 224 := by
    rw [flatten_words_length _ hw]
    norm_num
  have hform0 : encodeMatchOrders t ms f1 f2 a1 f3 a2 =
      ([word32 224, word32 (224 + (encodeOrder t).length),
        word32 f1, word32 f2,
        word32 (224 + (encodeOrder t).length + (encodeOrderList ms).length),
        word32 f3,
        word32 (224 + (encodeOrder t).length + (encodeOrderList ms).length +
          (encodeUintList a1).length)]).flatten ++
        encodeOrder t ++ encodeOrderList ms ++ encodeUintList a1 ++
        encodeUintList a2 := rfl
  rw [hform0, List.length_append, List.length_append, List.length_append,
    List.length_append, hheads]

/-- C4: decoding a well-formed encoded `matchOrders` call with N maker
orders yields exactly N+1 orders: the taker order's 13 fields first, then
the maker orders in encoded order. -/
theorem C4_decode_wellformed (t : OrderSpec) (ms : List OrderSpec)
    (f1 f2 : Nat) (a1 : List Nat) (f3 : Nat) (a2 : List Nat)
    (ht : t.Valid) (hv : ∀ m ∈ ms, m.Valid)
    (hf1 : f1 < 256 ^ 32) (hf2 : f2 < 256 ^ 32) (hf3 : f3 < 256 ^ 32)
    (ha1 : ∀ x ∈ a1, x < 256 ^ 32) (ha2 : ∀ x ∈ a2, x < 256 ^ 32)
    (htot : (encodeMatchOrders t ms f1 f2 a1 f3 a2).length < 256 ^ 32) :
    TransactionDecoder.decode (matchOrdersInputHex t ms f1 f2 a1 f3 a2) =
      some (expectedOrder t :: ms.map expectedOrder) ∧
    (expectedOrder t :: ms.map expectedOrder).length = ms.length + 1 :=
  ⟨decode_matchOrdersInputHex t ms f1 f2 a1 f3 a2 ht hv hf1 hf2 hf3 ha1
    ha2 htot, by simp⟩

/-! ## Concrete sample data for witnesses and counterexamples -/

/-- A small valid order (maker address `0xabc`, tokenId 5, amounts
100/200, empty signature). -/
def sampleOrder : OrderSpec :=
  ⟨1, 0xabc, 0xabc, 0, 5, 100, 200, 0, 0, 0, 0, 0, []⟩

theorem sampleOrder_valid : sampleOrder.Valid := by decide

theorem sampleOrder_encode_length : (encodeOrder sampleOrder).length = 448 := by
  rw [encodeOrder_length]
  decide

theorem sample_htot (ms : List OrderSpec) (h : ms = [] ∨ ms = [sampleOrder]) :
    (encodeMatchOrders sampleOrder ms 0 0 [] 0 []).length < 256 ^ 32 := by
  rw [encodeMatchOrders_length, sampleOrder_encode_length,
    encodeUintList_length]
  rcases h with h | h <;> subst h
  · rw [encodeOrderList_length]
    decide
  · rw [encodeOrderList_length]
    have : ([sampleOrder].map (fun m => (encodeOrder m).length)).sum = 448 := by
      rw [List.map_cons, List.map_nil, sampleOrder_encode_length]
      rfl
    rw [this]
    decide

/-- The wire input of a `matchOrders` call carrying only `sampleOrder`
as taker. -/
def sampleInput : String := matchOrdersInputHex sampleOrder [] 0 0 [] 0 []

/-- `decode` on `sampleInput` (via the round-trip theorems; the term is
too deep for kernel evaluation). -/
theorem sampleDecode : TransactionDecoder.decode sampleInput =
    some [expectedOrder sampleOrder] := by
  have h := decode_matchOrdersInputHex sampleOrder [] 0 0 [] 0 []
    sampleOrder_valid (by intro m hm; cases hm) (by decide) (by decide)
    (by decide) (by intro x hx; cases hx) (by intro x hx; cases hx)
    (sample_htot [] (Or.inl rfl))
  exact h

/-- C4 witness: the encoded call with taker `sampleOrder` and one maker
order decodes to exactly 2 orders, taker first. -/
theorem C4_witness :
    sampleOrder.Valid ∧
    (TransactionDecoder.decode
        (matchOrdersInputHex sampleOrder [sampleOrder] 0 0 [] 0 []) =
      some [expectedOrder sampleOrder, expectedOrder sampleOrder] ∧
     ([expectedOrder sampleOrder, expectedOrder sampleOrder]).length = 2) := by
  refine ⟨sampleOrder_valid, ?_⟩
  have h := C4_decode_wellformed sampleOrder [sampleOrder] 0 0 [] 0 []
    sampleOrder_valid
    (by intro m hm; rw [List.mem_singleton] at hm; rw [hm]
        exact sampleOrder_valid)
    (by decide) (by decide) (by decide)
    (by intro x hx; cases hx) (by intro x hx; cases hx)
    (sample_htot [sampleOrder] (Or.inr rfl))
  exact h

/-! ## BlockProcessor characterization (C6) -/

theorem except_ok_bind {e a b : Type} (x : a) (f : a → Except e b) :
    (Except.ok x : Except e a) >>= f = f x := rfl

theorem except_error_bind {e a b : Type} (err : e) (f : a → Except e b) :
    (Except.error err : Except e a) >>= f = Except.error err := rfl

theorem process_txs_cons (wf : WalletFilter) (bn : Nat)
    (receipts : List Receipt) (tx : Tx) (rest : List Tx) :
    BlockProcessor.process_txs wf bn receipts (tx :: rest) =
      (BlockProcessor.process_transaction wf tx bn
        (receiptLookup receipts tx.hash)) >>= (fun t? =>
      (BlockProcessor.process_txs wf bn receipts rest) >>= (fun trades =>
        match t? with
        | some t => .ok (t :: trades)
        | none => .ok trades)) := rfl

theorem filter_ok_some (wf : WalletFilter) (orders : List DecodedOrder)
    (receipt : Option Receipt) (o : DecodedOrder)
    (h : wf.filter orders receipt = .ok (some o)) :
    WalletFilter.is_successful receipt = .ok true ∧
      orders.find? wf.matches_wallet = some o := by
  unfold WalletFilter.filter at h
  cases hs : WalletFilter.is_successful receipt with
  | error e =>
    rw [hs, except_error_bind] at h
    exact absurd h (fun hx => Except.noConfusion hx)
  | ok b =>
    rw [hs, except_ok_bind] at h
    cases b with
    | false =>
      simp only [Bool.false_eq_true, if_false] at h
      exact absurd (Except.ok.inj h) (fun hx => Option.noConfusion hx)
    | true =>
      simp only [if_true] at h
      exact ⟨rfl, Except.ok.inj h⟩

theorem process_transaction_ok_some (wf : WalletFilter) (tx : Tx) (bn : Nat)
    (receipt : Option Receipt) (t : TradeData)
    (h : BlockProcessor.process_transaction wf tx bn receipt = .ok (some t)) :
    ∃ inp orders o, tx.input = some inp ∧
      TransactionDecoder.decode inp = some orders ∧
      orders.isEmpty = false ∧
      wf.filter orders receipt = .ok (some o) ∧
      t = ⟨bn, tx.hash, o.maker, o.token_id, o.side, o.maker_amount,
        o.taker_amount⟩ := by
  unfold BlockProcessor.process_transaction at h
  cases hin : tx.input with
  | none =>
    rw [hin] at h
    exact absurd h (fun hx => Except.noConfusion hx)
  | some inp =>
    rw [hin] at h
    dsimp only at h
    cases hdec : TransactionDecoder.decode inp with
    | none =>
      rw [hdec] at h
      exact absurd (Except.ok.inj h) (fun hx => Option.noConfusion hx)
    | some orders =>
      rw [hdec] at h
      dsimp only at h
      by_cases hemp : orders.isEmpty
      · rw [if_pos hemp] at h
        exact absurd (Except.ok.inj h) (fun hx => Option.noConfusion hx)
      · rw [if_neg hemp] at h
        cases hf : wf.filter orders receipt with
        | error e =>
          rw [hf, except_error_bind] at h
          exact absurd h (fun hx => Except.noConfusion hx)
        | ok m =>
          rw [hf, except_ok_bind] at h
          cases m with
          | none =>
            exact absurd (Except.ok.inj h) (fun hx => Option.noConfusion hx)
          | some o =>
            refine ⟨inp, orders, o, rfl, hdec, Bool.eq_false_iff.mpr hemp,
              hf, ?_⟩
            exact Option.some.inj (Except.ok.inj h).symm

theorem process_txs_ok_filterMap (wf : WalletFilter) (bn : Nat)
    (receipts : List Receipt) :
    ∀ (txs : List Tx) (rs : List TradeData),
      BlockProcessor.process_txs wf bn receipts txs = .ok rs →
      rs = txs.filterMap (fun tx =>
        ((BlockProcessor.process_transaction wf tx bn
          (receiptLookup receipts tx.hash)).toOption).bind id) := by
  intro txs
  induction txs with
  | nil =>
    intro rs h
    have := Except.ok.inj h
    rw [← this]
    rfl
  | cons tx rest ih =>
    intro rs h
    rw [process_txs_cons] at h
    cases h1 : BlockProcessor.process_transaction wf tx bn
        (receiptLookup receipts tx.hash) with
    | error e =>
      rw [h1, except_error_bind] at h
      exact absurd h (fun hx => Except.noConfusion hx)
    | ok t? =>
      rw [h1, except_ok_bind] at h
      cases h2 : BlockProcessor.process_txs wf bn receipts rest with
      | error e =>
        rw [h2, except_error_bind] at h
        exact absurd h (fun hx => Except.noConfusion hx)
      | ok ts =>
        rw [h2, except_ok_bind] at h
        have hts := ih ts h2
        cases t? with
        | none =>
          have hrs := Except.ok.inj h
          rw [List.filterMap_cons]
          rw [show ((BlockProcessor.process_transaction wf tx bn
            (receiptLookup receipts tx.hash)).toOption).bind id = none by
            rw [h1]; rfl]
          rw [← hrs, hts]
        | some t =>
          have hrs := Except.ok.inj h
          rw [List.filterMap_cons]
          rw [show ((BlockProcessor.process_transaction wf tx bn
            (receiptLookup receipts tx.hash)).toOption).bind id = some t by
            rw [h1]; rfl]
          rw [← hrs, hts]

/-- C6: a successful `process_block` produces at most one record per
transaction (the records are a `filterMap` of the per-transaction
outcomes, in block order), never from a failed or missing receipt, and
each record joins the block number, the transaction hash and the matched
order's maker, tokenId, side and amounts. -/
theorem C6_process_block (wf : WalletFilter) (bn : Nat) (txs : List Tx)
    (receipts : List Receipt) (rs : List TradeData)
    (h : BlockProcessor.process_block wf bn txs receipts = .ok rs) :
    rs = txs.filterMap (fun tx =>
      ((BlockProcessor.process_transaction wf tx bn
        (receiptLookup receipts tx.hash)).toOption).bind id) ∧
    rs.length ≤ txs.length ∧
    ∀ t ∈ rs, ∃ tx ∈ txs, t.transaction_hash = tx.hash ∧
      t.block_number = bn ∧
      WalletFilter.is_successful (receiptLookup receipts tx.hash) =
        .ok true ∧
      receiptLookup receipts tx.hash ≠ none ∧
      ∃ inp orders o, tx.input = some inp ∧
        TransactionDecoder.decode inp = some orders ∧ o ∈ orders ∧
        t.wallet = o.maker ∧ t.token_id = o.token_id ∧ t.side = o.side ∧
        t.maker_amount = o.maker_amount ∧
        t.taker_amount = o.taker_amount := by
  have hfm := process_txs_ok_filterMap wf bn receipts txs rs h
  refine ⟨hfm, ?_, ?_⟩
  · rw [hfm]
    exact List.length_filterMap_le _ _
  · intro t ht
    rw [hfm] at ht
    rcases List.mem_filterMap.mp ht with ⟨tx, htx, hsome⟩
    have hok : BlockProcessor.process_transaction wf tx bn
        (receiptLookup receipts tx.hash) = .ok (some t) := by
      cases hpt : BlockProcessor.process_transaction wf tx bn
          (receiptLookup receipts tx.hash) with
      | error e => rw [hpt] at hsome; exact absurd hsome (by simp [Except.toOption])
      | ok m =>
        rw [hpt] at hsome
        cases m with
        | none => exact absurd hsome (by simp [Except.toOption])
        | some u =>
          have hut : u = t := by
            have hx : ((Except.ok (some u) :
                Except PyErr (Option TradeData)).toOption).bind id =
                some t := hsome
            simpa [Except.toOption] using hx
          rw [← hut]
    rcases process_transaction_ok_some wf tx bn _ t hok with
      ⟨inp, orders, o, hin, hdec, hne, hfil, hrec⟩
    rcases filter_ok_some wf orders _ o hfil with ⟨hsucc, hfind⟩
    refine ⟨tx, htx, by rw [hrec], by rw [hrec], hsucc, ?_,
      inp, orders, o, hin, hdec, List.mem_of_find?_eq_some hfind,
      by rw [hrec], by rw [hrec], by rw [hrec], by rw [hrec], by rw [hrec]⟩
    intro hnone
    rw [hnone] at hsucc
    exact absurd (Except.ok.inj hsucc) (fun hx => Bool.noConfusion hx)

/-- C6 witness: a one-transaction block whose input is not a
`matchOrders` call processes successfully to the empty record list. -/
theorem C6_witness :
    BlockProcessor.process_block (WalletFilter.init []) 1
      [⟨"0xh", none, some "0x"⟩] [] = .ok [] ∧
    ([] : List TradeData) = [⟨"0xh", none, some "0x"⟩].filterMap (fun tx =>
      ((BlockProcessor.process_transaction (WalletFilter.init []) tx 1
        (receiptLookup [] tx.hash)).toOption).bind id) :=
  ⟨by decide,
   (C6_process_block (WalletFilter.init []) 1 [⟨"0xh", none, some "0x"⟩]
     [] [] (by decide)).1⟩

/-! ## Per-transaction evaluation lemmas (downloader vs block processor) -/

theorem receiptLookup_single (r : Receipt) (h : String)
    (hh : r.transactionHash = h) : receiptLookup [r] h = some r := by
  unfold receiptLookup
  rw [show ([r].reverse) = [r] from rfl]
  apply List.find?_cons_of_pos
  rw [hh]
  exact beq_self_eq_true h

theorem decode_ne_nil (s : String) (l : List DecodedOrder)
    (h : TransactionDecoder.decode s = some l) : ∃ o os, l = o :: os := by
  unfold TransactionDecoder.decode at h
  cases h1 : bytesFromHexChars (TransactionDecoder.strip0x s.toList) with
  | none => rw [h1] at h; exact absurd h (fun hx => Option.noConfusion hx)
  | some bs =>
    rw [h1] at h
    dsimp only at h
    by_cases h2 : bs.length < 4
    · rw [if_pos h2] at h
      exact absurd h (fun hx => Option.noConfusion hx)
    · rw [if_neg h2] at h
      by_cases h3 : bs.take 4 ≠ MATCH_ORDERS_SELECTOR
      · rw [if_pos h3] at h
        exact absurd h (fun hx => Option.noConfusion hx)
      · rw [if_neg h3] at h
        cases h4 : decodeMatchOrders (bs.drop 4) with
        | none =>
          rw [h4] at h
          exact absurd h (fun hx => Option.noConfusion hx)
        | some d =>
          rw [h4] at h
          have := Option.some.inj h
          exact ⟨TransactionDecoder.parse_order d.takerOrder,
            d.makerOrders.map TransactionDecoder.parse_order, this.symm⟩

theorem is_successful_0x1 (r : Receipt) (h : r.status = some "0x1") :
    WalletFilter.is_successful (some r) = .ok true := by
  unfold WalletFilter.is_successful
  dsimp only
  rw [h]
  decide

theorem is_successful_0x0 (r : Receipt) (h : r.status = some "0x0") :
    WalletFilter.is_successful (some r) = .ok false := by
  unfold WalletFilter.is_successful
  dsimp only
  rw [h]
  decide

theorem filter_trackall_cons (o : DecodedOrder) (os : List DecodedOrder)
    (receipt : Option Receipt)
    (hs : WalletFilter.is_successful receipt = .ok true) :
    (WalletFilter.init []).filter (o :: os) receipt = .ok (some o) := by
  rw [filter_of_success _ _ _ hs,
    find?_of_all_true _ _ matches_wallet_trackall]
  rfl

theorem bp_pt_decode_none (wf : WalletFilter) (tx : Tx) (bn : Nat)
    (receipt : Option Receipt) (inp : String) (hin : tx.input = some inp)
    (hdec : TransactionDecoder.decode inp = none) :
    BlockProcessor.process_transaction wf tx bn receipt = .ok none := by
  unfold BlockProcessor.process_transaction
  rw [hin]
  dsimp only
  rw [hdec]

theorem bp_pt_filtered (wf : WalletFilter) (tx : Tx) (bn : Nat)
    (receipt : Option Receipt) (inp : String) (o : DecodedOrder)
    (os : List DecodedOrder) (hin : tx.input = some inp)
    (hdec : TransactionDecoder.decode inp = some (o :: os))
    (hfil : wf.filter (o :: os) receipt = .ok none) :
    BlockProcessor.process_transaction wf tx bn receipt = .ok none := by
  unfold BlockProcessor.process_transaction
  rw [hin]
  dsimp only
  rw [hdec]
  dsimp only
  rw [if_neg (fun hx => Bool.noConfusion hx), hfil, except_ok_bind]

theorem bp_pt_match (wf : WalletFilter) (tx : Tx) (bn : Nat)
    (receipt : Option Receipt) (inp : String) (o : DecodedOrder)
    (os : List DecodedOrder) (m : DecodedOrder) (hin : tx.input = some inp)
    (hdec : TransactionDecoder.decode inp = some (o :: os))
    (hfil : wf.filter (o :: os) receipt = .ok (some m)) :
    BlockProcessor.process_transaction wf tx bn receipt =
      .ok (some ⟨bn, tx.hash, m.maker, m.token_id, m.side, m.maker_amount,
        m.taker_amount⟩) := by
  unfold BlockProcessor.process_transaction
  rw [hin]
  dsimp only
  rw [hdec]
  dsimp only
  rw [if_neg (fun hx => Bool.noConfusion hx), hfil, except_ok_bind]

theorem dl_tx_decode_none (bn : Nat) (receipts : List Receipt) (tx : Tx)
    (inp : String) (hin : tx.input = some inp)
    (hdec : TransactionDecoder.decode inp = none) :
    TradeDownloader.process_tx bn receipts tx = none := by
  unfold TradeDownloader.process_tx
  rw [hin, Option.getD_some, hdec]

theorem dl_tx_no_receipt (bn : Nat) (receipts : List Receipt) (tx : Tx)
    (inp : String) (o : DecodedOrder) (os : List DecodedOrder)
    (hin : tx.input = some inp)
    (hdec : TransactionDecoder.decode inp = some (o :: os))
    (hr : receiptLookup receipts tx.hash = none) :
    TradeDownloader.process_tx bn receipts tx = none := by
  unfold TradeDownloader.process_tx
  rw [hin, Option.getD_some, hdec]
  dsimp only
  rw [dif_neg (fun hx => Bool.noConfusion hx), hr]

theorem dl_tx_bad_status (bn : Nat) (receipts : List Receipt) (tx : Tx)
    (inp : String) (o : DecodedOrder) (os : List DecodedOrder) (r : Receipt)
    (hin : tx.input = some inp)
    (hdec : TransactionDecoder.decode inp = some (o :: os))
    (hr : receiptLookup receipts tx.hash = some r)
    (hstatus : ¬ r.status = some "0x1") :
    TradeDownloader.process_tx bn receipts tx = none := by
  unfold TradeDownloader.process_tx
  rw [hin, Option.getD_some, hdec]
  dsimp only
  rw [dif_neg (fun hx => Bool.noConfusion hx), hr]
  dsimp only
  rw [if_pos hstatus]

theorem dl_tx_good (bn : Nat) (receipts : List Receipt) (tx : Tx)
    (inp : String) (o : DecodedOrder) (os : List DecodedOrder) (r : Receipt)
    (hin : tx.input = some inp)
    (hdec : TransactionDecoder.decode inp = some (o :: os))
    (hr : receiptLookup receipts tx.hash = some r)
    (hstatus : r.status = some "0x1") :
    TradeDownloader.process_tx bn receipts tx =
      some ⟨bn, tx.hash, o.maker, o.token_id, o.side, o.maker_amount,
        o.taker_amount⟩ := by
  unfold TradeDownloader.process_tx
  rw [hin, Option.getD_some, hdec]
  dsimp only
  rw [dif_neg (fun hx => Bool.noConfusion hx), hr]
  dsimp only
  rw [if_neg (fun hx => hx hstatus)]
  rfl

theorem bp_process_block_eq (wf : WalletFilter) (bn : Nat) (txs : List Tx)
    (receipts : List Receipt) :
    BlockProcessor.process_block wf bn txs receipts =
      BlockProcessor.process_txs wf bn receipts txs := rfl

theorem dl_process_block_fst (bn : Nat) (txs : List Tx)
    (receipts : List Receipt) :
    (TradeDownloader.process_block bn txs receipts).1 =
      txs.filterMap (TradeDownloader.process_tx bn receipts) := rfl

/-! ## Claim C1: downloader per-block path vs Block Processor (track-all) -/

/-- A transaction carrying the sample `matchOrders` call. -/
def sampleTx : Tx := ⟨"0xhash1", none, some sampleInput⟩

/-- Its receipt with the non-canonical (but successful) status `"0x01"`. -/
def sampleReceipt01 : Receipt := ⟨"0xhash1", some "0x01"⟩

/-- Its receipt with the canonical success status `"0x1"`. -/
def sampleReceipt : Receipt := ⟨"0xhash1", some "0x1"⟩

/-- C1 counterexample: on identical block and receipt data — one valid
`matchOrders` transaction whose receipt has status `"0x01"` (which
denotes success as an integer, but is not the literal string `"0x1"`) —
the Block Processor in track-all mode produces one trade record while
the downloader's `_process_block` produces none. -/
theorem C1_counterexample :
    BlockProcessor.process_block (WalletFilter.init []) 7 [sampleTx]
      [sampleReceipt01] =
      .ok [⟨7, "0xhash1", (expectedOrder sampleOrder).maker,
        (expectedOrder sampleOrder).token_id,
        (expectedOrder sampleOrder).side,
        (expectedOrder sampleOrder).maker_amount,
        (expectedOrder sampleOrder).taker_amount⟩] ∧
    (TradeDownloader.process_block 7 [sampleTx] [sampleReceipt01]).1 =
      [] := by
  constructor
  · have hsucc : WalletFilter.is_successful (some sampleReceipt01) =
        .ok true := by decide
    have hfil : (WalletFilter.init []).filter [expectedOrder sampleOrder]
        (some sampleReceipt01) = .ok (some (expectedOrder sampleOrder)) :=
      filter_trackall_cons _ [] _ hsucc
    have hpt : BlockProcessor.process_transaction (WalletFilter.init [])
        sampleTx 7 (receiptLookup [sampleReceipt01] sampleTx.hash) =
        .ok (some ⟨7, sampleTx.hash, (expectedOrder sampleOrder).maker,
          (expectedOrder sampleOrder).token_id,
          (expectedOrder sampleOrder).side,
          (expectedOrder sampleOrder).maker_amount,
          (expectedOrder sampleOrder).taker_amount⟩) := by
      rw [receiptLookup_single sampleReceipt01 sampleTx.hash rfl]
      exact bp_pt_match _ _ _ _ sampleInput (expectedOrder sampleOrder) []
        (expectedOrder sampleOrder) rfl sampleDecode hfil
    rw [bp_process_block_eq, process_txs_cons, hpt, except_ok_bind]
    rfl
  · have hdl : TradeDownloader.process_tx 7 [sampleReceipt01] sampleTx =
        none := by
      apply dl_tx_bad_status 7 [sampleReceipt01] sampleTx sampleInput
        (expectedOrder sampleOrder) [] sampleReceipt01 rfl sampleDecode
        (receiptLookup_single sampleReceipt01 sampleTx.hash rfl)
      decide
    rw [dl_process_block_fst, List.filterMap_cons, hdl]
    rfl

/-- C1 (amended): on blocks whose transactions all carry an `input`
field and whose receipts all have a canonical status (`"0x1"` or
`"0x0"`), the downloader's `_process_block` agrees with the Block
Processor's `process_block` in track-all mode: same transactions
selected, same field values, same order.  (The counterexample shows the
two status tests — string comparison against `"0x1"` versus integer
parsing — disagree on non-canonical statuses such as `"0x01"`, and a
missing input raises in the processor but is skipped by the
downloader.) -/
theorem C1_downloader_refines_processor (bn : Nat) (txs : List Tx)
    (receipts : List Receipt)
    (hinp : ∀ tx ∈ txs, tx.input ≠ none)
    (hst : ∀ r ∈ receipts, r.status = some "0x1" ∨ r.status = some "0x0") :
    BlockProcessor.process_block (WalletFilter.init []) bn txs receipts =
      .ok (TradeDownloader.process_block bn txs receipts).1 := by
  revert hinp
  induction txs with
  | nil => intro _; rfl
  | cons tx rest ih =>
    intro hinp
    obtain ⟨inp, hin⟩ : ∃ inp, tx.input = some inp := by
      cases h : tx.input with
      | none => exact absurd h (hinp tx (List.mem_cons_self tx rest))
      | some i => exact ⟨i, rfl⟩
    have ihr : BlockProcessor.process_txs (WalletFilter.init []) bn receipts
        rest = .ok (rest.filterMap (TradeDownloader.process_tx bn receipts)) :=
      ih (fun t ht => hinp t (List.mem_cons_of_mem tx ht))
    show BlockProcessor.process_txs (WalletFilter.init []) bn receipts
      (tx :: rest) =
      .ok ((tx :: rest).filterMap (TradeDownloader.process_tx bn receipts))
    rw [process_txs_cons, List.filterMap_cons]
    cases hdec : TransactionDecoder.decode inp with
    | none =>
      rw [bp_pt_decode_none _ _ _ _ inp hin hdec, except_ok_bind,
        dl_tx_decode_none bn receipts tx inp hin hdec]
      dsimp only
      rw [ihr, except_ok_bind]
    | some orders =>
      obtain ⟨o, os, rfl⟩ := decode_ne_nil inp orders hdec
      cases hr : receiptLookup receipts tx.hash with
      | none =>
        have hfil : (WalletFilter.init []).filter (o :: os) none =
            .ok none := filter_of_failure _ _ _ rfl
        rw [bp_pt_filtered _ _ _ _ inp o os hin hdec hfil,
          except_ok_bind,
          dl_tx_no_receipt bn receipts tx inp o os hin hdec hr]
        dsimp only
        rw [ihr, except_ok_bind]
      | some r =>
        have hrmem : r ∈ receipts := by
          unfold receiptLookup at hr
          exact List.mem_reverse.mp (List.mem_of_find?_eq_some hr)
        rcases hst r hrmem with h1 | h0
        · have hfil : (WalletFilter.init []).filter (o :: os) (some r) =
              .ok (some o) :=
            filter_trackall_cons o os (some r) (is_successful_0x1 r h1)
          rw [bp_pt_match _ _ _ _ inp o os o hin hdec hfil,
            except_ok_bind,
            dl_tx_good bn receipts tx inp o os r hin hdec hr h1]
          dsimp only
          rw [ihr, except_ok_bind]
        · have hfil : (WalletFilter.init []).filter (o :: os) (some r) =
              .ok none :=
            filter_of_failure _ _ _ (is_successful_0x0 r h0)
          have hne : ¬ r.status = some "0x1" := by
            rw [h0]
            decide
          rw [bp_pt_filtered _ _ _ _ inp o os hin hdec hfil,
            except_ok_bind,
            dl_tx_bad_status bn receipts tx inp o os r hin hdec hr hne]
          dsimp only
          rw [ihr, except_ok_bind]

/-- C1 witness: a block with one short-input transaction and a canonical
successful receipt, where both paths agree on the empty record list. -/
theorem C1_witness :
    (∀ tx ∈ [(⟨"0xh", none, some "0x"⟩ : Tx)], tx.input ≠ none) ∧
    (∀ r ∈ [(⟨"0xh", some "0x1"⟩ : Receipt)],
      r.status = some "0x1" ∨ r.status = some "0x0") ∧
    BlockProcessor.process_block (WalletFilter.init []) 3
      [⟨"0xh", none, some "0x"⟩] [⟨"0xh", some "0x1"⟩] =
      .ok (TradeDownloader.process_block 3 [⟨"0xh", none, some "0x"⟩]
        [⟨"0xh", some "0x1"⟩]).1 :=
  ⟨by decide, by decide,
   C1_downloader_refines_processor 3 _ _ (by decide) (by decide)⟩

/-! ## Claim C7: the RPC retry loop -/

/-- The value of the third attempt's sub-loop. -/
def rpcTail3 (outcomes : Nat → RpcOutcome) : Except String String × List ℚ :=
  match attemptResult (outcomes 3) with
  | .ok v => (Except.ok v, [])
  | .error e => (Except.error e, [])

/-- The value of the loop from attempt 2 with two attempts left. -/
def rpcTail2 (outcomes : Nat → RpcOutcome) : Except String String × List ℚ :=
  match attemptResult (outcomes 2) with
  | .ok v => (Except.ok v, [])
  | .error _ =>
    ((rpcTail3 outcomes).1,
     RPC_RETRY_DELAY_SECONDS * 2 ^ 1 :: (rpcTail3 outcomes).2)

theorem rpcCall_eq (outcomes : Nat → RpcOutcome) :
    rpcCall outcomes =
      match attemptResult (outcomes 1) with
      | .ok v => (Except.ok v, [])
      | .error _ =>
        ((rpcTail2 outcomes).1,
         RPC_RETRY_DELAY_SECONDS * 2 ^ 0 :: (rpcTail2 outcomes).2) := rfl

/-- C7: each `_rpc_call` consults at most `RPC_MAX_RETRIES = 3` attempt
outcomes; every failing attempt (HTTP 429, other non-200, transport
error, RPC-level error payload — all mapped to exceptions by
`attemptResult`) is retried identically with delay
`RPC_RETRY_DELAY_SECONDS * 2^(attempt-1)` before the next attempt; a
success on any attempt up to the third returns that result with no
error; three failures raise the last error. -/
theorem C7_rpc_retry :
    (∀ o1 o2 : Nat → RpcOutcome,
      (∀ j, 1 ≤ j → j ≤ RPC_MAX_RETRIES → o1 j = o2 j) →
      rpcCall o1 = rpcCall o2) ∧
    (∀ (outcomes : Nat → RpcOutcome) (v : String),
      attemptResult (outcomes 1) = .ok v →
      rpcCall outcomes = (.ok v, [])) ∧
    (∀ (outcomes : Nat → RpcOutcome) (e1 : String) (v : String),
      attemptResult (outcomes 1) = .error e1 →
      attemptResult (outcomes 2) = .ok v →
      rpcCall outcomes = (.ok v, [RPC_RETRY_DELAY_SECONDS * 2 ^ 0])) ∧
    (∀ (outcomes : Nat → RpcOutcome) (e1 e2 : String) (v : String),
      attemptResult (outcomes 1) = .error e1 →
      attemptResult (outcomes 2) = .error e2 →
      attemptResult (outcomes 3) = .ok v →
      rpcCall outcomes = (.ok v,
        [RPC_RETRY_DELAY_SECONDS * 2 ^ 0,
         RPC_RETRY_DELAY_SECONDS * 2 ^ 1])) ∧
    (∀ (outcomes : Nat → RpcOutcome) (e1 e2 e3 : String),
      attemptResult (outcomes 1) = .error e1 →
      attemptResult (outcomes 2) = .error e2 →
      attemptResult (outcomes 3) = .error e3 →
      rpcCall outcomes = (.error e3,
        [RPC_RETRY_DELAY_SECONDS * 2 ^ 0,
         RPC_RETRY_DELAY_SECONDS * 2 ^ 1])) := by
  refine ⟨?_, ?_, ?_, ?_, ?_⟩
  · intro o1 o2 h
    have t3 : rpcTail3 o1 = rpcTail3 o2 := by
      unfold rpcTail3
      rw [h 3 (by decide) (by decide)]
    have t2 : rpcTail2 o1 = rpcTail2 o2 := by
      unfold rpcTail2
      rw [h 2 (by decide) (by decide), t3]
    rw [rpcCall_eq o1, rpcCall_eq o2, h 1 (by decide) (by decide), t2]
  · intro outcomes v h1
    rw [rpcCall_eq, h1]
  · intro outcomes e1 v h1 h2
    rw [rpcCall_eq, h1]
    unfold rpcTail2
    rw [h2]
  · intro outcomes e1 e2 v h1 h2 h3
    rw [rpcCall_eq, h1]
    unfold rpcTail2 rpcTail3
    rw [h2, h3]
  · intro outcomes e1 e2 e3 h1 h2 h3
    rw [rpcCall_eq, h1]
    unfold rpcTail2 rpcTail3
    rw [h2, h3]

/-- C7 witness (end-to-end scenario D): a call that fails twice — once
by HTTP 429, once by transport error — then succeeds on the third
attempt returns the result with no error, after backoff delays 1 and 2
seconds. -/
theorem C7_witness :
    attemptResult (RpcOutcome.http 429 none) = .error "Rate limited (HTTP 429)" ∧
    attemptResult RpcOutcome.transport = .error "transport error" ∧
    attemptResult (RpcOutcome.http 200 (some ⟨none, some "res"⟩)) = .ok "res" ∧
    rpcCall (fun k => if k = 1 then RpcOutcome.http 429 none
      else if k = 2 then RpcOutcome.transport
      else RpcOutcome.http 200 (some ⟨none, some "res"⟩)) =
      (.ok "res", [RPC_RETRY_DELAY_SECONDS * 2 ^ 0,
        RPC_RETRY_DELAY_SECONDS * 2 ^ 1]) :=
  ⟨by decide, by decide, by decide,
   C7_rpc_retry.2.2.2.1 _ "Rate limited (HTTP 429)" "transport error" "res"
     (by decide) (by decide) (by decide)⟩

/-! ## Claim C9: live monitor per-block error handling -/

theorem subscribeRun_append (process : Nat → Except String (List TradeData))
    (a b : List WsMsg) :
    TradeMonitor.subscribeRun process (a ++ b) =
      TradeMonitor.subscribeRun process a ++
        TradeMonitor.subscribeRun process b := by
  unfold TradeMonitor.subscribeRun
  rw [List.filterMap_append, List.map_append, List.flatten_append]

theorem subscribeRun_cons_some
    (process : Nat → Except String (List TradeData)) (b : Nat)
    (rest : List WsMsg) :
    TradeMonitor.subscribeRun process (⟨some b⟩ :: rest) =
      TradeMonitor.on_block (process b) ++
        TradeMonitor.subscribeRun process rest := by
  unfold TradeMonitor.subscribeRun
  rw [List.filterMap_cons]
  rfl

theorem on_block_no_close (r : Except String (List TradeData))
    (ev : MonitorEvent) (hev : ev ∈ TradeMonitor.on_block r) :
    ∀ reason, ev ≠ MonitorEvent.close reason := by
  intro reason
  cases r with
  | ok ts =>
    rcases List.mem_map.mp hev with ⟨t, _, rfl⟩
    exact fun hx => MonitorEvent.noConfusion hx
  | error e =>
    rcases List.mem_singleton.mp hev with rfl
    exact fun hx => MonitorEvent.noConfusion hx

theorem subscribeRun_no_close
    (process : Nat → Except String (List TradeData)) (msgs : List WsMsg)
    (ev : MonitorEvent)
    (hev : ev ∈ TradeMonitor.subscribeRun process msgs) :
    ∀ reason, ev ≠ MonitorEvent.close reason := by
  unfold TradeMonitor.subscribeRun at hev
  rcases List.mem_flatten.mp hev with ⟨l, hl, hevl⟩
  rcases List.mem_map.mp hl with ⟨bnum, _, rfl⟩
  exact on_block_no_close _ ev hevl

/-- C9: a per-block processing error produces a single `"error"` event
for that block, the subscription loop continues with the following
messages, and no `"close"` event is ever produced by per-block
processing. -/
theorem C9_monitor_error_continues
    (process : Nat → Except String (List TradeData)) (pre : List WsMsg)
    (b : Nat) (rest : List WsMsg) (e : String)
    (h : process b = .error e) :
    TradeMonitor.subscribeRun process (pre ++ ⟨some b⟩ :: rest) =
      TradeMonitor.subscribeRun process pre ++
        ([MonitorEvent.error e] ++
          TradeMonitor.subscribeRun process rest) ∧
    ∀ ev ∈ TradeMonitor.subscribeRun process (pre ++ ⟨some b⟩ :: rest),
      ∀ reason, ev ≠ MonitorEvent.close reason := by
  constructor
  · rw [subscribeRun_append, subscribeRun_cons_some, h]
    rfl
  · intro ev hev
    exact subscribeRun_no_close process _ ev hev

/-- C9 witness: block 5 fails, blocks 4 and 6 succeed; the error is
reported and processing continues with block 6. -/
theorem C9_witness :
    (fun n => if n = 5 then (.error "boom" : Except String (List TradeData))
      else .ok []) 5 = .error "boom" ∧
    TradeMonitor.subscribeRun
      (fun n => if n = 5 then (.error "boom" : Except String (List TradeData))
        else .ok [])
      ([⟨some 4⟩] ++ ⟨some 5⟩ :: [⟨some 6⟩]) =
      TradeMonitor.subscribeRun
        (fun n => if n = 5 then (.error "boom" : Except String (List TradeData))
          else .ok []) [⟨some 4⟩] ++
        ([MonitorEvent.error "boom"] ++
          TradeMonitor.subscribeRun
            (fun n => if n = 5 then
              (.error "boom" : Except String (List TradeData))
              else .ok []) [⟨some 6⟩]) :=
  ⟨by decide,
   (C9_monitor_error_continues _ [⟨some 4⟩] 5 [⟨some 6⟩] "boom"
     (by decide)).1⟩

/-! ## Claims C8 and C10: historical-download batching -/

theorem chunksGo_nil (size fuel : Nat) : chunksGo size fuel [] = [] := by
  cases fuel <;> rfl

theorem chunksOf_single (size : Nat) (l : List Nat) (hne : l ≠ [])
    (hle : l.length ≤ size) : chunksOf size l = [l] := by
  cases l with
  | nil => exact absurd rfl hne
  | cons a t =>
    show chunksGo size (a :: t).length (a :: t) = [a :: t]
    rw [List.length_cons, chunksGo, List.take_of_length_le hle,
      List.drop_eq_nil_of_le hle, chunksGo_nil]

theorem chunksGo_sublist (size : Nat) :
    ∀ fuel l c, c ∈ chunksGo size fuel l → c.Sublist l := by
  intro fuel
  induction fuel with
  | zero =>
    intro l c hc
    cases l with
    | nil => rw [chunksGo_nil] at hc; cases hc
    | cons a t => cases hc
  | succ n ih =>
    intro l c hc
    cases l with
    | nil => rw [chunksGo_nil] at hc; cases hc
    | cons a t =>
      rw [chunksGo] at hc
      rcases List.mem_cons.mp hc with rfl | hmem
      · exact List.take_sublist _ _
      · exact (ih _ _ hmem).trans (List.drop_sublist _ _)

/-- Every trade the downloader extracts from a block carries that block's
number. -/
theorem dl_block_number (bn : Nat) (txs : List Tx) (rs : List Receipt) :
    ∀ t ∈ (TradeDownloader.process_block bn txs rs).1,
      t.block_number = bn := by
  intro t ht
  rw [dl_process_block_fst] at ht
  rcases List.mem_filterMap.mp ht with ⟨tx, _, htx⟩
  unfold TradeDownloader.process_tx at htx
  split at htx
  · exact Option.noConfusion htx
  · split at htx
    · exact Option.noConfusion htx
    · split at htx
      · exact Option.noConfusion htx
      · split at htx
        · exact Option.noConfusion htx
        · cases Option.some.inj htx
          rfl

/-- A batch of ascending blocks yields trades in ascending block-number
order. -/
theorem batchTrades_pairwise (fetch : Nat → List Tx × List Receipt)
    (batch : List Nat) (hs : batch.Pairwise (· ≤ ·)) :
    (TradeDownloader.batchTrades fetch batch).Pairwise
      (fun a b => a.block_number ≤ b.block_number) := by
  unfold TradeDownloader.batchTrades
  rw [List.pairwise_flatten]
  constructor
  · intro l hl
    rcases List.mem_map.mp hl with ⟨b, _, rfl⟩
    refine List.pairwise_of_forall_mem_list ?_
    intro x hx y hy
    rw [dl_block_number b (fetch b).1 (fetch b).2 x hx,
      dl_block_number b (fetch b).1 (fetch b).2 y hy]
  · rw [List.pairwise_map]
    refine hs.imp ?_
    intro a b hab x hx y hy
    rw [dl_block_number a (fetch a).1 (fetch a).2 x hx,
      dl_block_number b (fetch b).1 (fetch b).2 y hy]
    exact hab

/-- `download` with the `let`s resolved. -/
theorem download_eq (fetch : Nat → List Tx × List Receipt)
    (max_rps : Nat) (sb eb : Option Nat) (mb head : Nat) :
    TradeDownloader.download fetch max_rps sb eb mb head =
      (chunksOf (max_rps * 2)
          (List.range' (sb.getD (eb.getD head - mb))
            (eb.getD head + 1 - sb.getD (eb.getD head - mb)))).filterMap
        (fun batch =>
          let bt := TradeDownloader.batchTrades fetch batch
          if bt.isEmpty then none else some bt) := rfl

theorem filterMap_singleton_if (fetch : Nat → List Tx × List Receipt)
    (batch : List Nat) :
    List.filterMap
      (fun b =>
        let bt := TradeDownloader.batchTrades fetch b
        if bt.isEmpty then none else some bt) [batch] =
      if (TradeDownloader.batchTrades fetch batch).isEmpty then []
      else [TradeDownloader.batchTrades fetch batch] := by
  cases hbe : (TradeDownloader.batchTrades fetch batch).isEmpty with
  | true => simp [List.isEmpty_iff.mp hbe]
  | false =>
    have hne : TradeDownloader.batchTrades fetch batch ≠ [] := by
      intro h0
      rw [h0] at hbe
      exact Bool.noConfusion hbe
    simp [hbe, hne]

/-- A fetch oracle whose blocks are all empty. -/
def emptyFetch : Nat → List Tx × List Receipt := fun _ => ([], [])

/-- C8 counterexample: `download(start=100, end=105, max_blocks=1000)`
with `max_rps = 3` (batch size `6 ≥ 6`) over blocks with no matching
trades invokes `on_trades` zero times, not exactly once: the loop guards
the callback behind `if batch_trades:`. -/
theorem C8_counterexample :
    6 ≤ 3 * 2 ∧
    TradeDownloader.download emptyFetch 3 (some 100) (some 105) 1000 0 =
      [] := by
  constructor
  · decide
  · decide

/-- C8 (amended): with batch size ≥ 6 the inclusive range 100–105 forms a
single batch, so `on_trades` is invoked AT MOST once — exactly once iff
some block of 100–105 produced a trade (the original "exactly once"
fails when no trades match); the single invocation carries the
per-block trade lists of blocks 100,...,105 concatenated in ascending
block-number order. -/
theorem C8_single_batch (fetch : Nat → List Tx × List Receipt)
    (max_rps head : Nat) (h6 : 6 ≤ max_rps * 2) :
    TradeDownloader.download fetch max_rps (some 100) (some 105) 1000
        head =
      (if (TradeDownloader.batchTrades fetch (List.range' 100 6)).isEmpty
        then []
        else [TradeDownloader.batchTrades fetch (List.range' 100 6)]) ∧
    TradeDownloader.batchTrades fetch (List.range' 100 6) =
      ((List.range' 100 6).map
        (fun b =>
          (TradeDownloader.process_block b (fetch b).1
            (fetch b).2).1)).flatten ∧
    (TradeDownloader.batchTrades fetch (List.range' 100 6)).Pairwise
      (fun a b => a.block_number ≤ b.block_number) := by
  refine ⟨?_, rfl,
    batchTrades_pairwise fetch _
      ((List.pairwise_lt_range' 100 6).imp le_of_lt)⟩
  rw [download_eq]
  rw [show ((some 105 : Option Nat).getD head + 1 -
      (some 100 : Option Nat).getD
        ((some 105 : Option Nat).getD head - 1000)) = 6 from rfl]
  rw [show ((some 100 : Option Nat).getD
      ((some 105 : Option Nat).getD head - 1000)) = 100 from rfl]
  rw [chunksOf_single (max_rps * 2) (List.range' 100 6) (by decide)
    (by rw [List.length_range']; exact h6)]
  exact filterMap_singleton_if fetch (List.range' 100 6)

/-- C8 witness: `max_rps = 3` and the all-empty fetch oracle satisfy the
hypothesis and the amended conclusion. -/
theorem C8_witness :
    6 ≤ 3 * 2 ∧
    (TradeDownloader.download emptyFetch 3 (some 100) (some 105) 1000 0 =
      (if (TradeDownloader.batchTrades emptyFetch
            (List.range' 100 6)).isEmpty
        then []
        else [TradeDownloader.batchTrades emptyFetch
          (List.range' 100 6)]) ∧
    TradeDownloader.batchTrades emptyFetch (List.range' 100 6) =
      ((List.range' 100 6).map
        (fun b =>
          (TradeDownloader.process_block b (emptyFetch b).1
            (emptyFetch b).2).1)).flatten ∧
    (TradeDownloader.batchTrades emptyFetch (List.range' 100 6)).Pairwise
      (fun a b => a.block_number ≤ b.block_number)) :=
  ⟨by decide, C8_single_batch emptyFetch 3 0 (by decide)⟩

/-- C10: every `on_trades` invocation of the historical downloader is
non-empty and carries its trades in ascending block-number order, and it
is exactly the concatenated per-block trade list of one batch of the
block range — collected in submission (block) order, deterministically.
-/
theorem C10_batch_order (fetch : Nat → List Tx × List Receipt)
    (max_rps : Nat) (sb eb : Option Nat) (mb head : Nat) :
    ∀ bt ∈ TradeDownloader.download fetch max_rps sb eb mb head,
      bt ≠ [] ∧
      bt.Pairwise (fun a b => a.block_number ≤ b.block_number) ∧
      ∃ batch ∈ chunksOf (max_rps * 2)
          (List.range' (sb.getD (eb.getD head - mb))
            (eb.getD head + 1 - sb.getD (eb.getD head - mb))),
        bt = TradeDownloader.batchTrades fetch batch := by
  intro bt hbt
  rw [download_eq] at hbt
  rcases List.mem_filterMap.mp hbt with ⟨batch, hbatch, hf⟩
  dsimp only at hf
  split at hf
  · exact Option.noConfusion hf
  · next hcond =>
    cases Option.some.inj hf
    have hsorted : batch.Pairwise (· ≤ ·) :=
      ((List.pairwise_lt_range' _ _).imp le_of_lt).sublist
        (chunksGo_sublist (max_rps * 2) _ _ batch hbatch)
    refine ⟨?_, batchTrades_pairwise fetch batch hsorted,
      batch, hbatch, rfl⟩
    intro h0
    exact hcond (by rw [h0]; rfl)

/-- A fetch oracle serving the sample `matchOrders` transaction at block
100 and nothing elsewhere. -/
def sampleFetch : Nat → List Tx × List Receipt :=
  fun b => if b = 100 then ([sampleTx], [sampleReceipt]) else ([], [])

/-- The trade the downloader extracts from `sampleTx` at block 100. -/
def sampleTrade : TradeData :=
  ⟨100, "0xhash1", (expectedOrder sampleOrder).maker,
    (expectedOrder sampleOrder).token_id, (expectedOrder sampleOrder).side,
    (expectedOrder sampleOrder).maker_amount,
    (expectedOrder sampleOrder).taker_amount⟩

theorem sampleBatchTrades :
    TradeDownloader.batchTrades sampleFetch [100] = [sampleTrade] := by
  have hpt : TradeDownloader.process_tx 100 [sampleReceipt] sampleTx =
      some sampleTrade :=
    dl_tx_good 100 [sampleReceipt] sampleTx sampleInput
      (expectedOrder sampleOrder) [] sampleReceipt rfl sampleDecode
      (receiptLookup_single sampleReceipt sampleTx.hash rfl) rfl
  unfold TradeDownloader.batchTrades
  rw [List.map_cons, List.map_nil,
    show sampleFetch 100 = ([sampleTx], [sampleReceipt]) from rfl,
    dl_process_block_fst, List.filterMap_cons, hpt, List.filterMap_nil]
  rfl

/-- C10 witness: the single-block download over `sampleFetch` invokes
`on_trades` with `[sampleTrade]`, which is non-empty, ordered, and a
batch's concatenation. -/
theorem C10_witness :
    [sampleTrade] ≠ [] ∧
    ([sampleTrade] : List TradeData).Pairwise
      (fun a b => a.block_number ≤ b.block_number) ∧
    ∃ batch ∈ chunksOf (1 * 2)
        (List.range'
          ((some 100 : Option Nat).getD
            ((some 100 : Option Nat).getD 0 - 0))
          ((some 100 : Option Nat).getD 0 + 1 -
            (some 100 : Option Nat).getD
              ((some 100 : Option Nat).getD 0 - 0))),
      [sampleTrade] = TradeDownloader.batchTrades sampleFetch batch := by
  have hmem : [sampleTrade] ∈
      TradeDownloader.download sampleFetch 1 (some 100) (some 100) 0 0 := by
    rw [download_eq]
    apply List.mem_filterMap.mpr
    refine ⟨[100], by decide, ?_⟩
    dsimp only
    rw [sampleBatchTrades]
    rfl
  exact C10_batch_order sampleFetch 1 (some 100) (some 100) 0 0
    [sampleTrade] hmem
